import Mathlib

/-!
Verification of the css-sync agent ("cssback"): a shallow embedding of the
change-propagation pipeline (stylesheet registry, declaration differ, URL /
selector resolvers, structured patchers, loop guard, orchestrator handler)
together with proofs settling the specification claims.

Conventions of the embedding:
* JavaScript strings are Lean `String`s; helper operations are defined over
  `String.data` (lists of characters) so that they are provable and
  executable.
* JavaScript `null`/`undefined` is `Option.none`; the JS falsiness of the
  empty string is modelled explicitly where the source relies on it
  (`x || null` chains).
* The filesystem is modelled explicitly: `existsSync` becomes a function
  `String → Bool`, `readFile` a function `String → Option String` (returning
  `none` when the read fails), both supplied as part of an environment.
* `Date.now()` timestamps are `Nat` arguments; MD5 is an abstract hash
  function parameter (its internals are irrelevant to every claim).
* Fallible operations return `Except String`/`Option`; the `try/catch`
  blocks of the source become `match`es on these results.
-/

namespace CssSync

/-- Curly brace characters, written via code points. -/
def openBrace : Char := Char.ofNat 123

def closeBrace : Char := Char.ofNat 125

def doubleQuote : Char := Char.ofNat 34

def singleQuote : Char := Char.ofNat 39

/-- JS `\s`-style whitespace test (ASCII subset, as used by the sources). -/
def isWs (c : Char) : Bool :=
  c = ' ' || c = '\t' || c = '\n' || c = '\r' || c = Char.ofNat 12 || c = Char.ofNat 11

def ltrimChars : List Char → List Char
  | [] => []
  | c :: cs => if isWs c then ltrimChars cs else c :: cs

def rtrimChars (cs : List Char) : List Char :=
  (ltrimChars cs.reverse).reverse

def trimChars (cs : List Char) : List Char :=
  rtrimChars (ltrimChars cs)

/-- JS `String.prototype.trim`. -/
def jsTrim (s : String) : String :=
  String.mk (trimChars s.data)

/-- `startsWith` over character lists. -/
def startsWithChars (pre cs : List Char) : Bool :=
  pre.isPrefixOf cs

def jsStartsWith (s pre : String) : Bool :=
  startsWithChars pre.data s.data

def jsEndsWith (s suf : String) : Bool :=
  suf.data.isSuffixOf s.data

/-- Substring containment over character lists. -/
def containsChars (needle cs : List Char) : Bool :=
  match cs with
  | [] => needle.isPrefixOf ([] : List Char)
  | c :: rest => needle.isPrefixOf (c :: rest) || containsChars needle rest

/-- JS `String.prototype.includes`. -/
def jsIncludes (s needle : String) : Bool :=
  containsChars needle.data s.data

/-- Drop a known leading part (used where the source slices a matched part). -/
def dropStartChars (n : Nat) (s : String) : String :=
  String.mk (s.data.drop n)

/-- First index (from `start`) at which `c` occurs, if any. -/
def indexOfChar : List Char → Char → Option Nat
  | [], _ => none
  | c :: cs, d =>
    if c = d then some 0
    else match indexOfChar cs d with
      | some i => some (i + 1)
      | none => none

/-- Split a character list at every occurrence of `sep` (JS `split(sep)`). -/
def splitOnChar (sep : Char) (cs : List Char) : List (List Char) :=
  match cs with
  | [] => [[]]
  | c :: rest =>
    let tail := splitOnChar sep rest
    if c = sep then [] :: tail
    else match tail with
      | [] => [[c]]
      | t :: ts => (c :: t) :: ts

def jsSplitOn (s : String) (sep : Char) : List String :=
  (splitOnChar sep s.data).map String.mk

/-- JS `split(/\s+/)`: runs of whitespace separate fields; a leading run
produces an initial empty field, a trailing run a final empty field.  The
`Bool` records whether the previous character belonged to a whitespace run. -/
def splitWsGo : Bool → List Char → List Char → List (List Char)
  | _, acc, [] => [acc.reverse]
  | prevWs, acc, c :: cs =>
    if isWs c then
      if prevWs then splitWsGo true acc cs
      else acc.reverse :: splitWsGo true [] cs
    else splitWsGo false (c :: acc) cs

def jsSplitWs (s : String) : List String :=
  (splitWsGo false [] s.data).map String.mk

/-- Collapse whitespace runs into single spaces (the patchers'
`normalize`: `s.replace(/\s+/g, ' ').trim()`). -/
def collapseWsGo : Bool → List Char → List Char
  | _, [] => []
  | prevWs, c :: cs =>
    if isWs c then
      if prevWs then collapseWsGo true cs
      else ' ' :: collapseWsGo true cs
    else c :: collapseWsGo false cs

def normalizeWs (s : String) : String :=
  String.mk (trimChars (collapseWsGo false s.data))

/-- JS `x || null` applied to an optional string: the empty string is falsy. -/
def strOrNone : Option String → Option String
  | some s => if s = "" then none else some s
  | none => none

/-- Left-to-right JS `||` on nullable strings. -/
def jsOrElse (a b : Option String) : Option String :=
  match strOrNone a with
  | some v => some v
  | none => strOrNone b

/-! ## text-diff.js : offset/position conversion -/

structure Pos where
  line : Nat
  column : Nat
deriving DecidableEq, Repr

/-- `offsetToPosition` from text-diff.js: walk the text counting newlines;
lines are 1-based, columns 0-based. -/
def offsetToPositionAux : List Char → Nat → Nat → Nat → Pos
  | _, 0, line, col => ⟨line, col⟩
  | [], _ + 1, line, col => ⟨line, col⟩
  | c :: rest, n + 1, line, col =>
    if c = '\n' then offsetToPositionAux rest n (line + 1) 0
    else offsetToPositionAux rest n line (col + 1)

def offsetToPosition (text : String) (offset : Nat) : Pos :=
  offsetToPositionAux text.data offset 1 0

/-! ## safety/loop-guard.js -/

structure WriteRecord where
  hash : String
  timestamp : Nat
deriving DecidableEq, Repr

/-- The loop guard's `recentWrites` map plus its TTL.  The JS `Map` is an
insertion-ordered association list; `set` overwrites in place. -/
structure LoopGuard where
  recentWrites : List (String × WriteRecord)
  ttl : Nat
deriving DecidableEq, Repr

namespace LoopGuard

def findRec : List (String × WriteRecord) → String → Option WriteRecord
  | [], _ => none
  | (k, r) :: rest, key => if k = key then some r else findRec rest key

def setRec : List (String × WriteRecord) → String → WriteRecord → List (String × WriteRecord)
  | [], key, r => [(key, r)]
  | (k, r0) :: rest, key, r =>
    if k = key then (k, r) :: rest else (k, r0) :: setRec rest key r

def eraseRec : List (String × WriteRecord) → String → List (String × WriteRecord)
  | [], _ => []
  | (k, r0) :: rest, key =>
    if k = key then rest else (k, r0) :: eraseRec rest key

/-- `registerWrite(filePath, content)`: store the content hash at time `now`.
`hashFn` abstracts `createHash('md5')...digest('hex')`. -/
def registerWrite (hashFn : String → String) (now : Nat) (g : LoopGuard)
    (filePath content : String) : LoopGuard :=
  { g with recentWrites := setRec g.recentWrites filePath ⟨hashFn content, now⟩ }

/-- `shouldIgnore(filePath, content)`: no entry → false; entry older than TTL
→ purge it and return false; otherwise compare hashes.  Returns the verdict
together with the possibly-purged state. -/
def shouldIgnore (hashFn : String → String) (now : Nat) (g : LoopGuard)
    (filePath content : String) : Bool × LoopGuard :=
  match findRec g.recentWrites filePath with
  | none => (false, g)
  | some record =>
    if now - record.timestamp > g.ttl then
      (false, { g with recentWrites := eraseRec g.recentWrites filePath })
    else
      (record.hash = hashFn content, g)

/-- `registerStyleSheetWrite` stores under the `sheet:<id>` key. -/
def registerStyleSheetWrite (hashFn : String → String) (now : Nat) (g : LoopGuard)
    (styleSheetId content : String) : LoopGuard :=
  registerWrite hashFn now g ("sheet:" ++ styleSheetId) content

/-- `shouldIgnoreStyleSheet` checks under the `sheet:<id>` key. -/
def shouldIgnoreStyleSheet (hashFn : String → String) (now : Nat) (g : LoopGuard)
    (styleSheetId content : String) : Bool × LoopGuard :=
  shouldIgnore hashFn now g ("sheet:" ++ styleSheetId) content

/-- `cleanup()`: drop every entry older than TTL (background sweep). -/
def cleanup (now : Nat) (g : LoopGuard) : LoopGuard :=
  { g with recentWrites := g.recentWrites.filter (fun kr => ¬ (now - kr.2.timestamp > g.ttl)) }

end LoopGuard

/-! ## cdp/registry.js -/

structure StyleSheetHeader where
  styleSheetId : String
  sourceURL : String
  isInline : Bool
  sourceMapURL : String
deriving DecidableEq, Repr

structure SheetRecord where
  header : StyleSheetHeader
  text : Option String
  lastModified : Option Nat
  viteDevId : Option String
  originalSource : Option String
deriving DecidableEq, Repr

/-- The registry's `sheets` map: insertion-ordered id → record. -/
structure StyleSheetRegistry where
  sheets : List (String × SheetRecord)
deriving DecidableEq, Repr

namespace StyleSheetRegistry

def findSheet : List (String × SheetRecord) → String → Option SheetRecord
  | [], _ => none
  | (k, r) :: rest, key => if k = key then some r else findSheet rest key

def setSheet : List (String × SheetRecord) → String → SheetRecord → List (String × SheetRecord)
  | [], key, r => [(key, r)]
  | (k, r0) :: rest, key, r =>
    if k = key then (k, r) :: rest else (k, r0) :: setSheet rest key r

def get (reg : StyleSheetRegistry) (styleSheetId : String) : Option SheetRecord :=
  findSheet reg.sheets styleSheetId

/-- `register(header)`: a no-op when the id is already present. -/
def register (reg : StyleSheetRegistry) (header : StyleSheetHeader) : StyleSheetRegistry :=
  match findSheet reg.sheets header.styleSheetId with
  | some _ => reg
  | none =>
    { sheets := reg.sheets ++ [(header.styleSheetId, ⟨header, none, none, none, none⟩)] }

/-- `updateText(id, text)`: only touches an already-registered sheet. -/
def updateText (reg : StyleSheetRegistry) (styleSheetId text : String) (now : Nat) :
    StyleSheetRegistry :=
  match findSheet reg.sheets styleSheetId with
  | none => reg
  | some sheet =>
    { sheets := setSheet reg.sheets styleSheetId { sheet with text := some text, lastModified := some now } }

/-- `getPreviousText(id)`: `sheet?.text || null` — the empty string is falsy,
so a stored `""` is reported as `null`. -/
def getPreviousText (reg : StyleSheetRegistry) (styleSheetId : String) : Option String :=
  match findSheet reg.sheets styleSheetId with
  | none => none
  | some sheet => strOrNone sheet.text

/-- `getSourceURL(id)`: `sheet?.viteDevId || sheet?.header?.sourceURL || null`. -/
def getSourceURL (reg : StyleSheetRegistry) (styleSheetId : String) : Option String :=
  match findSheet reg.sheets styleSheetId with
  | none => none
  | some sheet => jsOrElse sheet.viteDevId (some sheet.header.sourceURL)

def getViteDevId (reg : StyleSheetRegistry) (styleSheetId : String) : Option String :=
  match findSheet reg.sheets styleSheetId with
  | none => none
  | some sheet => strOrNone sheet.viteDevId

def getOriginalSource (reg : StyleSheetRegistry) (styleSheetId : String) : Option String :=
  match findSheet reg.sheets styleSheetId with
  | none => none
  | some sheet => strOrNone sheet.originalSource

def remove (reg : StyleSheetRegistry) (styleSheetId : String) : StyleSheetRegistry :=
  { sheets := reg.sheets.filter (fun kr => kr.1 ≠ styleSheetId) }

end StyleSheetRegistry

/-! ## The postcss parser, as used by diff/css-parser.js and the patchers

A declaration-level model of `postcss.parse` (and `postcss-scss`'s `parse`,
which accepts the same brace/semicolon surface syntax): the text is cut into
statements at `;`, `{`, `}` (quoted strings and parenthesised groups are
opaque), giving a tree of rules, at-rules and declarations.  Declarations
split `prop: value` at the first colon; a trailing `!important` is stripped
into the `important` flag, exactly as postcss exposes `decl.value` /
`decl.important`.  Malformed input (unclosed block/string/bracket, a
statement without a colon, a stray closing brace) is a parse error, matching
the `CssSyntaxError`s postcss throws.  Comments are skipped between
statements; inside a statement they are kept verbatim (they do not affect
any claim).  Each declaration records the character offset of its first
token; `decl.source.start` (postcss's 1-based line / 1-based column, which
the differ converts to a 0-based column) is recovered through
`offsetToPosition`. -/

mutual
inductive CssNode where
  | rule (selector : String) (nodes : CssForest)
  | atrule (name : String) (params : String) (nodes : CssForest)
  | decl (prop : String) (value : String) (important : Bool) (startOffset : Nat)
inductive CssForest where
  | nil
  | cons (hd : CssNode) (tl : CssForest)
end

/-- Append a node at the end of a forest (postcss `rule.append`). -/
def CssForest.snoc : CssForest → CssNode → CssForest
  | .nil, d => .cons d .nil
  | .cons h t, d => .cons h (t.snoc d)

def impLit : List Char := "!important".data

/-- Split a raw declaration value into `(value, important)`:
postcss strips a trailing `!important` into the flag. -/
def splitImportant (raw : String) : String × Bool :=
  let t := trimChars raw.data
  if impLit.isSuffixOf t then
    (String.mk (rtrimChars (t.take (t.length - impLit.length))), true)
  else (String.mk t, false)

def mkDecl (prop rawValue : String) (startOff : Nat) : CssNode :=
  let vi := splitImportant rawValue
  .decl (String.mk (trimChars prop.data)) vi.1 vi.2 startOff

/-- Scan past a closing comment delimiter, returning the rest and the offset. -/
def findCloseComment : List Char → Nat → Option (List Char × Nat)
  | [], _ => none
  | '*' :: '/' :: rest, off => some (rest, off + 2)
  | _ :: rest, off => findCloseComment rest (off + 1)

def skipSpaceCommentsGo : Nat → List Char → Nat → Except String (List Char × Nat)
  | 0, cs, off => .ok (cs, off)
  | fuel + 1, cs, off =>
    match cs with
    | [] => .ok ([], off)
    | '/' :: '*' :: rest =>
      match findCloseComment rest (off + 2) with
      | none => .error "Unclosed comment"
      | some (rest2, off2) => skipSpaceCommentsGo fuel rest2 off2
    | c :: rest =>
      if isWs c then skipSpaceCommentsGo fuel rest (off + 1) else .ok (cs, off)

def skipSpaceComments (cs : List Char) (off : Nat) : Except String (List Char × Nat) :=
  skipSpaceCommentsGo (cs.length + 1) cs off

/-- Consume up to and including the closing quote `q`, honouring backslash
escapes.  Returns the consumed characters and the rest. -/
def takeQuoted (q : Char) : List Char → Option (List Char × List Char)
  | [] => none
  | c :: rest =>
    if c = '\\' then
      match rest with
      | [] => none
      | d :: rest2 =>
        match takeQuoted q rest2 with
        | some (consumed, rem) => some (c :: d :: consumed, rem)
        | none => none
    else if c = q then some ([c], rest)
    else
      match takeQuoted q rest with
      | some (consumed, rem) => some (c :: consumed, rem)
      | none => none

/-- Consume up to and including the closing parenthesis (flat, as in the
postcss tokenizer's brackets token). -/
def takeParen : List Char → Option (List Char × List Char)
  | [] => none
  | c :: rest =>
    if c = ')' then some ([c], rest)
    else
      match takeParen rest with
      | some (consumed, rem) => some (c :: consumed, rem)
      | none => none

/-- Scan one statement chunk: everything up to `;`, `{`, `}` or EOF at
top level.  A closing brace is not consumed.  Returns
`(chunk, delimiter?, rest, offset-after)`. -/
def scanChunkGo : Nat → List Char → Nat → Except String (List Char × Option Char × List Char × Nat)
  | 0, _, _ => .error "fuel"
  | fuel + 1, cs, off =>
    match cs with
    | [] => .ok ([], none, [], off)
    | c :: rest =>
      if c = ';' then .ok ([], some ';', rest, off + 1)
      else if c = openBrace then .ok ([], some openBrace, rest, off + 1)
      else if c = closeBrace then .ok ([], some closeBrace, cs, off)
      else if c = doubleQuote || c = singleQuote then
        match takeQuoted c rest with
        | none => .error "Unclosed string"
        | some (consumed, rem) =>
          match scanChunkGo fuel rem (off + 1 + consumed.length) with
          | .error e => .error e
          | .ok (chunk, delim, rest2, off2) => .ok (c :: consumed ++ chunk, delim, rest2, off2)
      else if c = '(' then
        match takeParen rest with
        | none => .error "Unclosed bracket"
        | some (consumed, rem) =>
          match scanChunkGo fuel rem (off + 1 + consumed.length) with
          | .error e => .error e
          | .ok (chunk, delim, rest2, off2) => .ok (c :: consumed ++ chunk, delim, rest2, off2)
      else
        match scanChunkGo fuel rest (off + 1) with
        | .error e => .error e
        | .ok (chunk, delim, rest2, off2) => .ok (c :: chunk, delim, rest2, off2)

def scanChunk (cs : List Char) (off : Nat) :
    Except String (List Char × Option Char × List Char × Nat) :=
  scanChunkGo (cs.length + 1) cs off

/-- Parse a bodiless statement: an at-rule without block, or a declaration
(`prop: value`, erroring without a colon like postcss's Unknown word). -/
def parseStatement (chunk : List Char) (startOff : Nat) : Except String CssNode :=
  let t := trimChars chunk
  match t with
  | '@' :: rest =>
    let name := rest.takeWhile (fun c => ¬ isWs c)
    .ok (.atrule (String.mk name) (String.mk (trimChars (rest.drop name.length))) .nil)
  | _ =>
    match indexOfChar t ':' with
    | none => .error "Unknown word"
    | some i => .ok (mkDecl (String.mk (t.take i)) (String.mk (t.drop (i + 1))) startOff)

/-- Wrap a block's header chunk: at-rule with body, or a rule whose
selector is the trimmed header text. -/
def mkBlock (chunk : List Char) (inner : CssForest) : CssNode :=
  let t := trimChars chunk
  match t with
  | '@' :: rest =>
    let name := rest.takeWhile (fun c => ¬ isWs c)
    .atrule (String.mk name) (String.mk (trimChars (rest.drop name.length))) inner
  | _ => .rule (String.mk t) inner

/-- Parse the statements of one nesting level.  Stops before a closing brace
(returned unconsumed) or at EOF. -/
def parseNodes : Nat → List Char → Nat → Except String (CssForest × List Char × Nat)
  | 0, _, _ => .error "fuel"
  | fuel + 1, cs, off =>
    match skipSpaceComments cs off with
    | .error e => .error e
    | .ok (cs1, off1) =>
      match cs1 with
      | [] => .ok (.nil, [], off1)
      | c :: _ =>
        if c = closeBrace then .ok (.nil, cs1, off1)
        else
          match scanChunk cs1 off1 with
          | .error e => .error e
          | .ok (chunk, delim, rest2, off2) =>
            match delim with
            | some d =>
              if d = openBrace then
                match parseNodes fuel rest2 off2 with
                | .error e => .error e
                | .ok (inner, rest3, off3) =>
                  match rest3 with
                  | c3 :: rest4 =>
                    if c3 = closeBrace then
                      match parseNodes fuel rest4 (off3 + 1) with
                      | .error e => .error e
                      | .ok (sibs, rest5, off5) =>
                        .ok (.cons (mkBlock chunk inner) sibs, rest5, off5)
                    else .error "Unclosed block"
                  | [] => .error "Unclosed block"
              else if d = ';' then
                if trimChars chunk = [] then parseNodes fuel rest2 off2
                else
                  match parseStatement chunk off1 with
                  | .error e => .error e
                  | .ok node =>
                    match parseNodes fuel rest2 off2 with
                    | .error e => .error e
                    | .ok (sibs, rest3, off3) => .ok (.cons node sibs, rest3, off3)
              else
                if trimChars chunk = [] then .ok (.nil, rest2, off2)
                else
                  match parseStatement chunk off1 with
                  | .error e => .error e
                  | .ok node => .ok (.cons node .nil, rest2, off2)
            | none =>
              if trimChars chunk = [] then .ok (.nil, [], off2)
              else
                match parseStatement chunk off1 with
                | .error e => .error e
                | .ok node => .ok (.cons node .nil, [], off2)

/-- `postcss.parse`: parse the whole text; leftover input (a stray closing
brace) is a syntax error. -/
def parseRoot (css : String) : Except String CssForest :=
  match parseNodes (css.data.length + 2) css.data 0 with
  | .error e => .error e
  | .ok (nodes, [], _) => .ok nodes
  | .ok (_, _ :: _, _) => .error "Unexpected closing brace"

def parseFailed (css : String) : Bool :=
  match parseRoot css with
  | .error _ => true
  | .ok _ => false

/-! ## diff/css-parser.js -/

structure DeclRecord where
  selector : String
  prop : String
  value : String
  important : Bool
  start : Pos
deriving DecidableEq, Repr

/-- `rule.selector || rule.name || '(unknown)'` for a rule (name undefined). -/
def labelOf (s : String) : String :=
  if s = "" then "(unknown)" else s

/-- `root.walkDecls`: collect every declaration (all depths, document order)
with its immediate parent's selector/name label. -/
def collectDecls (text : String) : String → CssForest → List DeclRecord
  | _, .nil => []
  | label, .cons (.decl p v imp off) rest =>
    ⟨label, p, v, imp, offsetToPosition text off⟩ :: collectDecls text label rest
  | label, .cons (.rule sel inner) rest =>
    collectDecls text (labelOf sel) inner ++ collectDecls text label rest
  | label, .cons (.atrule name _ inner) rest =>
    collectDecls text (labelOf name) inner ++ collectDecls text label rest

/-- `parseDeclarations(cssText)`: the try/catch around `postcss.parse` logs a
parse failure and returns the declarations collected so far — which is the
empty list, since the walk never ran. -/
def parseDeclarations (cssText : String) : List DeclRecord :=
  match parseRoot cssText with
  | .error _ => []
  | .ok nodes => collectDecls cssText "(unknown)" nodes

structure DeclarationChange where
  type : String
  selector : String
  prop : String
  oldValue : Option String
  newValue : Option String
  important : Option Bool
  position : Pos
deriving DecidableEq, Repr

def declKey (d : DeclRecord) : String :=
  d.selector ++ "|" ++ d.prop

/-- Append `d` to the group of key `k` (JS `Map` + push, insertion order). -/
def addToGroup : List (String × List DeclRecord) → String → DeclRecord →
    List (String × List DeclRecord)
  | [], k, d => [(k, [d])]
  | (k0, l) :: rest, k, d =>
    if k0 = k then (k0, l ++ [d]) :: rest else (k0, l) :: addToGroup rest k d

def groupDecls (ds : List DeclRecord) : List (String × List DeclRecord) :=
  ds.foldl (fun m d => addToGroup m (declKey d) d) []

/-- `map.get(key) || []`. -/
def findGroup : List (String × List DeclRecord) → String → List DeclRecord
  | [], _ => []
  | (k0, l) :: rest, k => if k0 = k then l else findGroup rest k

/-- Old/new values carry the literal `!important` suffix when set. -/
def renderVal (v : String) (imp : Bool) : String :=
  v ++ (if imp then " !important" else "")

def mkAddChange (nd : DeclRecord) : DeclarationChange :=
  ⟨"add", nd.selector, nd.prop, none, some nd.value, some nd.important, nd.start⟩

def mkModifyChange (od nd : DeclRecord) : DeclarationChange :=
  ⟨"change", nd.selector, nd.prop, some (renderVal od.value od.important),
    some (renderVal nd.value nd.important), some nd.important, nd.start⟩

def mkDeleteChange (od : DeclRecord) : DeclarationChange :=
  ⟨"delete", od.selector, od.prop, some od.value, none, none, od.start⟩

/-- The per-key index-parallel walk of the two declaration lists: index in
both and differing → modify; index only in new → add. -/
def emitForKey : List DeclRecord → List DeclRecord → List DeclarationChange
  | _, [] => []
  | [], nd :: ns => mkAddChange nd :: emitForKey [] ns
  | od :: os, nd :: ns =>
    (if od.value ≠ nd.value ∨ od.important ≠ nd.important then [mkModifyChange od nd] else [])
      ++ emitForKey os ns

def changesPart (oldMap : List (String × List DeclRecord)) :
    List (String × List DeclRecord) → List DeclarationChange
  | [] => []
  | (k, newList) :: rest => emitForKey (findGroup oldMap k) newList ++ changesPart oldMap rest

/-- Trailing old entries (old list longer than new) become deletes. -/
def deletesPart (newMap : List (String × List DeclRecord)) :
    List (String × List DeclRecord) → List DeclarationChange
  | [] => []
  | (k, oldList) :: rest =>
    (oldList.drop (findGroup newMap k).length).map mkDeleteChange ++ deletesPart newMap rest

/-- `findChangedDeclarations(oldCss, newCss)`. -/
def findChangedDeclarations (oldCss newCss : String) : List DeclarationChange :=
  let oldMap := groupDecls (parseDeclarations oldCss)
  let newMap := groupDecls (parseDeclarations newCss)
  changesPart oldMap newMap ++ deletesPart newMap oldMap

/-! ## mapper/url-resolver.js

`existsSync` is modelled by a function `fsExists : String → Bool`;
`path.join`/`path.resolve` by slash-normalising concatenation (the agent
never feeds them `.`/`..` segments); `new URL(url, devServerBase).pathname`
by `extractPathname` for the URL shapes the agent sees (the base URL is
assumed well-formed with a root path, so the constructor never throws). -/

def collapseSlashGo : Bool → List Char → List Char
  | _, [] => []
  | prevSlash, c :: cs =>
    if c = '/' then
      if prevSlash then collapseSlashGo true cs
      else '/' :: collapseSlashGo true cs
    else c :: collapseSlashGo false cs

/-- Join path segments, skipping empties and collapsing duplicate slashes. -/
def joinPath (segs : List String) : String :=
  String.mk (collapseSlashGo false (String.intercalate "/" (segs.filter (fun s => s ≠ ""))).data)

/-- Rest of `cs` after the first occurrence of `needle`, if any. -/
def afterSub (needle : List Char) : List Char → Option (List Char)
  | [] => if needle = [] then some [] else none
  | c :: rest =>
    if needle.isPrefixOf (c :: rest) then some ((c :: rest).drop needle.length)
    else afterSub needle rest

def cutAtQueryHash (cs : List Char) : List Char :=
  cs.takeWhile (fun c => c ≠ '?' && c ≠ '#')

/-- `new URL(url, base).pathname` for the agent's URL shapes. -/
def extractPathname (u : String) : String :=
  match afterSub "://".data u.data with
  | some after =>
    (match indexOfChar after '/' with
     | some i => String.mk (cutAtQueryHash (after.drop i))
     | none => "/")
  | none =>
    let cs := cutAtQueryHash u.data
    match cs with
    | '/' :: _ => String.mk cs
    | _ => "/" ++ String.mk cs

structure UrlResolverEnv where
  projectRoot : String
  devServerBase : String
  mappings : List (String × String)
  fsExists : String → Bool

/-- The lazy capture `(.+?)(?:\?.*)?$`: shortest non-empty prefix whose
remainder is empty or starts the optional query. -/
def lazyCaptureToQuery (cs : List Char) : Option (List Char) :=
  match cs with
  | [] => none
  | _ :: tail =>
    match indexOfChar tail '?' with
    | some i => some (cs.take (i + 1))
    | none => some cs

/-- `^(?:\/[^/]+)?\/_next\/static\/css\/(.+?)(?:\?.*)?$` with the greedy
optional basePath segment tried first, as the regex engine does. -/
def matchNextCssUrl (pathname : String) : Option String :=
  let cs := pathname.data
  let lit := "/_next/static/css/".data
  let withBase :=
    match cs with
    | '/' :: rest =>
      let seg := rest.takeWhile (fun c => c ≠ '/')
      if seg ≠ [] then
        let rem := rest.drop seg.length
        if lit.isPrefixOf rem then lazyCaptureToQuery (rem.drop lit.length) else none
      else none
    | _ => none
  match withBase with
  | some cap => some (String.mk cap)
  | none =>
    if lit.isPrefixOf cs then (lazyCaptureToQuery (cs.drop lit.length)).map String.mk
    else none

/-- `^\/<dir>\/(.+\.css)$`. -/
def matchDirCss (dir pathname : String) : Option String :=
  let d := ("/" ++ dir ++ "/").data
  let cs := pathname.data
  if d.isPrefixOf cs then
    let rest := cs.drop d.length
    if rest.length > 4 && ".css".data.isSuffixOf rest then some (String.mk rest) else none
  else none

/-- `^\/(.+\.css)$`. -/
def matchRootCss (pathname : String) : Option String :=
  match pathname.data with
  | '/' :: rest =>
    if rest.length > 4 && ".css".data.isSuffixOf rest then some (String.mk rest) else none
  | _ => none

def firstExisting (fsExists : String → Bool) : List String → Option String
  | [] => none
  | p :: ps => if fsExists p then some p else firstExisting fsExists ps

/-- `cssPath.replace(/\?.*$/, '')`. -/
def stripQueryStr (cssPath : String) : String :=
  String.mk (cssPath.data.takeWhile (fun c => c ≠ '?'))

/-- The `pathParts[pathParts.length - 1]` filename. -/
def nextFilenameOf (cssPath : String) : String :=
  ((jsSplitOn (stripQueryStr cssPath) '/').getLast?).getD ""

/-- The `pathParts.slice(0, -1).join('/')` directory. -/
def nextDirOf (cssPath : String) : String :=
  String.intercalate "/" (jsSplitOn (stripQueryStr cssPath) '/').dropLast

/-- The built bundle path `join(projectRoot, '.next', 'static', 'css', cssPath)`. -/
def nextBuildPathOf (env : UrlResolverEnv) (cssPath : String) : String :=
  joinPath [env.projectRoot, ".next", "static", "css", stripQueryStr cssPath]

/-- `findNextJSSource(cssPath)`: the built CSS inside `.next/static/css/`
is returned first whenever it exists; only otherwise are the authored
candidates (`globalPaths` / `modulePaths`) probed. -/
def findNextJSSource (env : UrlResolverEnv) (cssPath : String) : Option String :=
  if env.fsExists (nextBuildPathOf env cssPath) then some (nextBuildPathOf env cssPath)
  else if nextFilenameOf cssPath = "layout.css" then
    firstExisting env.fsExists
      [joinPath [env.projectRoot, nextDirOf cssPath, "globals.css"],
       joinPath [env.projectRoot, nextDirOf cssPath, "global.css"],
       joinPath [env.projectRoot, nextDirOf cssPath, "globals.scss"],
       joinPath [env.projectRoot, nextDirOf cssPath, "global.scss"],
       joinPath [env.projectRoot, "app", "globals.css"],
       joinPath [env.projectRoot, "app", "global.scss"],
       joinPath [env.projectRoot, "styles", "globals.css"],
       joinPath [env.projectRoot, "styles", "global.scss"]]
  else if nextFilenameOf cssPath = "page.css" then
    firstExisting env.fsExists
      [joinPath [env.projectRoot, nextDirOf cssPath, "page.module.scss"],
       joinPath [env.projectRoot, nextDirOf cssPath, "page.module.css"],
       joinPath [env.projectRoot, nextDirOf cssPath, "styles.module.scss"],
       joinPath [env.projectRoot, nextDirOf cssPath, "styles.module.css"]]
  else none

/-- Authored-source candidates probed by `findNextJSSource` when the built
CSS is absent (the code's `globalPaths` / `modulePaths` lists). -/
def nextAuthoredCandidates (env : UrlResolverEnv) (cssPath : String) : List String :=
  if nextFilenameOf cssPath = "layout.css" then
    [joinPath [env.projectRoot, nextDirOf cssPath, "globals.css"],
     joinPath [env.projectRoot, nextDirOf cssPath, "global.css"],
     joinPath [env.projectRoot, nextDirOf cssPath, "globals.scss"],
     joinPath [env.projectRoot, nextDirOf cssPath, "global.scss"],
     joinPath [env.projectRoot, "app", "globals.css"],
     joinPath [env.projectRoot, "app", "global.scss"],
     joinPath [env.projectRoot, "styles", "globals.css"],
     joinPath [env.projectRoot, "styles", "global.scss"]]
  else if nextFilenameOf cssPath = "page.css" then
    [joinPath [env.projectRoot, nextDirOf cssPath, "page.module.scss"],
     joinPath [env.projectRoot, nextDirOf cssPath, "page.module.css"],
     joinPath [env.projectRoot, nextDirOf cssPath, "styles.module.scss"],
     joinPath [env.projectRoot, nextDirOf cssPath, "styles.module.css"]]
  else []

/-- `findInProject(filename)`: probe the six common style directories. -/
def findInProject (env : UrlResolverEnv) (filename : String) : Option String :=
  firstExisting env.fsExists
    [joinPath [env.projectRoot, "src", "styles", filename],
     joinPath [env.projectRoot, "src", "css", filename],
     joinPath [env.projectRoot, "styles", filename],
     joinPath [env.projectRoot, "css", filename],
     joinPath [env.projectRoot, "public", "styles", filename],
     joinPath [env.projectRoot, "public", "css", filename]]

/-- `path.resolve(projectRoot, p)` for the shapes seen here. -/
def resolvePath (root p : String) : String :=
  if jsStartsWith p "/" then p else joinPath [root, p]

/-- The user-mapping loop: first prefix-matching mapping whose rewritten
path exists. -/
def userMappingResolve (env : UrlResolverEnv) (pathname : String) : Option String :=
  let rec go : List (String × String) → Option String
    | [] => none
    | (pat, repl) :: rest =>
      if jsStartsWith pathname pat then
        let fullPath := resolvePath env.projectRoot (repl ++ dropStartChars pat.data.length pathname)
        if env.fsExists fullPath then some fullPath else go rest
      else go rest
  go env.mappings

/-- One built-in rule: keep the resolved path only if it exists. -/
def keepExisting (env : UrlResolverEnv) : Option String → Option String
  | some p => if env.fsExists p then some p else none
  | none => none

/-- The ordered built-in rules of `defaultMappings`. -/
def defaultMappingResolve (env : UrlResolverEnv) (pathname : String) : Option String :=
  match keepExisting env ((matchNextCssUrl pathname).bind (findNextJSSource env)) with
  | some p => some p
  | none =>
  match keepExisting env ((matchDirCss "src" pathname).map (fun cap => joinPath [env.projectRoot, "src", cap])) with
  | some p => some p
  | none =>
  match keepExisting env ((matchDirCss "assets" pathname).bind (findInProject env)) with
  | some p => some p
  | none =>
  match keepExisting env ((matchDirCss "static" pathname).map (fun cap => joinPath [env.projectRoot, "static", cap])) with
  | some p => some p
  | none =>
  match keepExisting env ((matchDirCss "styles" pathname).map (fun cap => joinPath [env.projectRoot, "styles", cap])) with
  | some p => some p
  | none =>
  match keepExisting env ((matchDirCss "css" pathname).map (fun cap => joinPath [env.projectRoot, "css", cap])) with
  | some p => some p
  | none =>
    keepExisting env ((matchRootCss pathname).map (fun cap => joinPath [env.projectRoot, "public", cap]))

/-- `URLResolver.resolve(url)`. -/
def urlResolve (env : UrlResolverEnv) (url : Option String) : Option String :=
  match strOrNone url with
  | none => none
  | some u =>
    if jsStartsWith u "file://" then some (dropStartChars 7 u)
    else
      let pathname := extractPathname u
      match userMappingResolve env pathname with
      | some p => some p
      | none =>
        match defaultMappingResolve env pathname with
        | some p => some p
        | none =>
          firstExisting env.fsExists
            [joinPath [env.projectRoot, pathname],
             joinPath [env.projectRoot, "src", pathname],
             joinPath [env.projectRoot, "public", pathname]]

/-! ## mapper/selector-resolver.js

The five CSS-module patterns are implemented as deterministic matchers that
reproduce the regex engine's greedy/backtracking behaviour: the path-segment
star tries the deepest consumption first; the component is the maximal
alphanumeric run (anything shorter would be followed by an alphanumeric
character, never by the `-`/`_` that each pattern requires next); the class
name is tried longest-first. -/

structure ParsedModuleSelector where
  component : String
  className : String
  originalSelector : String
  hasNested : Bool
  nestedParts : List String
deriving DecidableEq, Repr

def isNameChar (c : Char) : Bool :=
  c.isAlphanum || c = '-'

/-- Match `([a-zA-Z][a-zA-Z0-9-]*)<nameSep>[a-zA-Z0-9]+$`, longest name
first. -/
def matchNameHashLen (nameSep cs : List Char) : Nat → Option String
  | 0 => none
  | l + 1 =>
    let name := cs.take (l + 1)
    let rest := cs.drop (l + 1)
    if (match name with | c :: _ => c.isAlpha | [] => false)
        && nameSep.isPrefixOf rest
        && (let h := rest.drop nameSep.length
            decide (h ≠ []) && h.all Char.isAlphanum)
    then some (String.mk name)
    else matchNameHashLen nameSep cs l

def matchNameHash (nameSep cs : List Char) : Option String :=
  matchNameHashLen nameSep cs (cs.takeWhile isNameChar).length

/-- Match `([A-Za-z][A-Za-z0-9]*)<midLit><name><nameSep><hash>$` at `cs`. -/
def matchCompAt (midLit nameSep cs : List Char) : Option (String × String) :=
  let comp := cs.takeWhile Char.isAlphanum
  if (match comp with | c :: _ => c.isAlpha | [] => false)
      && midLit.isPrefixOf (cs.drop comp.length) then
    match matchNameHash nameSep ((cs.drop comp.length).drop midLit.length) with
    | some name => some (String.mk comp, name)
    | none => none
  else none

/-- Consumption points of the greedy `(?:[a-zA-Z0-9]+<sep>)*` star, from
zero iterations up. -/
def starPointsGo (sepChar : Char) : Nat → List Char → List (List Char)
  | 0, cs => [cs]
  | fuel + 1, cs =>
    cs ::
      (let seg := cs.takeWhile Char.isAlphanum
       if seg ≠ [] && (cs.drop seg.length).head? = some sepChar then
         starPointsGo sepChar fuel (cs.drop (seg.length + 1))
       else [])

def starPoints (sepChar : Char) (cs : List Char) : List (List Char) :=
  starPointsGo sepChar (cs.length + 1) cs

/-- A pattern with a path-prefix star: deepest star consumption first. -/
def matchWithPath (sepChar : Char) (midLit nameSep cs : List Char) :
    Option (String × String) :=
  (starPoints sepChar cs).reverse.findSome? (matchCompAt midLit nameSep)

/-- `parseCSSModuleSelector(selector)`: only the first whitespace-separated
segment is considered; the five patterns are tried in source order. -/
def parseCSSModuleSelector (selector : String) : Option ParsedModuleSelector :=
  let parts := jsSplitWs selector
  let mainSelector := (parts.head?).getD ""
  let hasNested := decide (parts.length > 1)
  let nestedParts := parts.tail
  match mainSelector.data with
  | '.' :: rest =>
    let mk := fun (cn : String × String) =>
      some (ParsedModuleSelector.mk cn.1 cn.2 ("." ++ cn.2) hasNested nestedParts)
    match matchCompAt "-module_".data "__".data rest with
    | some cn => mk cn
    | none =>
    match matchWithPath '_' "-module_".data "__".data rest with
    | some cn => mk cn
    | none =>
    match matchWithPath '-' "-module__".data "--".data rest with
    | some cn => mk cn
    | none =>
    match matchWithPath '_' "_".data "__".data rest with
    | some cn => mk cn
    | none =>
    match matchCompAt "_".data "__".data rest with
    | some cn => mk cn
    | none => none
  | _ => none

/-- The selector resolver's filesystem view: the project files (path and
content) in the order the depth-first directory walk enumerates them. -/
structure SelectorEnv where
  projectRoot : String
  files : List (String × String)

def fileRead (files : List (String × String)) (p : String) : Option String :=
  (files.find? (fun kv => kv.1 = p)).map Prod.snd

def lastPathComponent (p : String) : String :=
  ((jsSplitOn p '/').getLast?).getD ""

def excludeDirs : List String :=
  ["node_modules", ".next", ".git", "dist", "build"]

/-- Directory components of `p` relative to `root` (none when `p` is not
under `root`). -/
def pathDirComponents (root p : String) : Option (List String) :=
  if jsStartsWith p (root ++ "/") then
    some ((jsSplitOn (dropStartChars (root.data.length + 1) p) '/').dropLast)
  else none

/-- `findModuleFiles(componentName)`: the walk collects, in DFS order,
every `<Comp>.module.scss` / `<Comp>.module.css` under the root that is not
inside an excluded directory and lies within the depth limit. -/
def findModuleFiles (env : SelectorEnv) (componentName : String) : List String :=
  (env.files.map Prod.fst).filter (fun p =>
    (lastPathComponent p = componentName ++ ".module.scss"
      || lastPathComponent p = componentName ++ ".module.css")
    && (match pathDirComponents env.projectRoot p with
        | some dirs => decide (dirs.length ≤ 10) && dirs.all (fun d => !excludeDirs.contains d)
        | none => false))

/-- `\s*` then the end of a line (multiline `$`) — the regex backtracks, so
any line terminator inside the whitespace run counts. -/
def wsToEol : List Char → Bool
  | [] => true
  | c :: rest =>
    if c = '\n' || c = '\r' then true
    else if isWs c then wsToEol rest
    else false

def wsThenChar (target : Char) (cs : List Char) : Bool :=
  (cs.dropWhile isWs).head? = some target

/-- The four `hasSelector` regexes anchored at a position. -/
def matchClsAt (cls cs : List Char) : Bool :=
  (match cs with
   | '.' :: rest =>
     cls.isPrefixOf rest
       && (let after := rest.drop cls.length
           wsThenChar openBrace after || wsThenChar ',' after || wsToEol after)
   | _ => false)
  ||
  (match cs with
   | '&' :: '.' :: rest =>
     cls.isPrefixOf rest && wsThenChar openBrace (rest.drop cls.length)
   | _ => false)

def scanForCls (cls : List Char) : List Char → Bool
  | [] => false
  | c :: rest => matchClsAt cls (c :: rest) || scanForCls cls rest

/-- `hasSelector(filePath, className)`: a failed read is caught → false. -/
def hasSelector (env : SelectorEnv) (filePath className : String) : Bool :=
  match fileRead env.files filePath with
  | none => false
  | some content => scanForCls className.data content.data

def stripSuffixStr (s suf : String) : String :=
  if jsEndsWith s suf then String.mk (s.data.take (s.data.length - suf.data.length)) else s

def findSubIdx (needle : List Char) : List Char → Option Nat
  | [] => if needle = [] then some 0 else none
  | c :: rest =>
    if needle.isPrefixOf (c :: rest) then some 0
    else (findSubIdx needle rest).map (· + 1)

/-- JS `s.replace(pat, '')` (first occurrence). -/
def removeFirstStr (s pat : String) : String :=
  match findSubIdx pat.data s.data with
  | some i => String.mk (s.data.take i ++ s.data.drop (i + pat.data.length))
  | none => s

def jsToLower (s : String) : String :=
  String.mk (s.data.map Char.toLower)

/-- `basename(filePath, '.module.scss').replace('.module.css', '')`. -/
def moduleFileBaseName (fp : String) : String :=
  removeFirstStr (stripSuffixStr (lastPathComponent fp) ".module.scss") ".module.css"

/-- `SelectorResolver.resolve(selector)` (the per-session cache is
semantically transparent: it only memoises successful results of this
deterministic computation). -/
def selectorResolve (env : SelectorEnv) (selector : String) :
    Option (String × String) :=
  match parseCSSModuleSelector selector with
  | none => none
  | some parsed =>
    let moduleFiles := findModuleFiles env parsed.component
    match moduleFiles.find? (fun fp =>
        jsToLower (moduleFileBaseName fp) = jsToLower parsed.component
          && hasSelector env fp parsed.className) with
    | some fp => some (fp, parsed.originalSelector)
    | none =>
      match moduleFiles.find? (fun fp => hasSelector env fp parsed.className) with
      | some fp => some (fp, parsed.originalSelector)
      | none => none

/-! ## patcher/css-patcher.js and patcher/scss-patcher.js

`patchMultiple(filePath, changes)` is modelled as a function of the file's
content (`none` when `existsSync` fails), a `writeOk` flag standing for the
success of the tempfile-write + rename, and the change list.  The returned
`PatchResult` carries the `{success, failed}` counts plus the content handed
to `writeFile` (`none` when no write happened or the write failed — the
atomic tempfile/rename leaves the original untouched on failure). -/

/-- `matchSelector`: whitespace-normalised equality. -/
def matchSelector (fileSelector targetSelector : String) : Bool :=
  normalizeWs fileSelector = normalizeWs targetSelector

/-- `decl.remove()` for every descendant declaration of the property
(`rule.walkDecls(prop, ...)` walks all depths). -/
def removeDeclsDeep (prop : String) : CssForest → CssForest
  | .nil => .nil
  | .cons (.decl p v imp off) rest =>
    if p = prop then removeDeclsDeep prop rest
    else .cons (.decl p v imp off) (removeDeclsDeep prop rest)
  | .cons (.rule s inner) rest =>
    .cons (.rule s (removeDeclsDeep prop inner)) (removeDeclsDeep prop rest)
  | .cons (.atrule n pr inner) rest =>
    .cons (.atrule n pr (removeDeclsDeep prop inner)) (removeDeclsDeep prop rest)

/-- Overwrite value/important of every descendant declaration of the
property. -/
def setDeclsDeep (prop value : String) (imp : Bool) : CssForest → CssForest
  | .nil => .nil
  | .cons (.decl p v i off) rest =>
    if p = prop then .cons (.decl p value imp off) (setDeclsDeep prop value imp rest)
    else .cons (.decl p v i off) (setDeclsDeep prop value imp rest)
  | .cons (.rule s inner) rest =>
    .cons (.rule s (setDeclsDeep prop value imp inner)) (setDeclsDeep prop value imp rest)
  | .cons (.atrule n pr inner) rest =>
    .cons (.atrule n pr (setDeclsDeep prop value imp inner)) (setDeclsDeep prop value imp rest)

def hasDeclDeep (prop : String) : CssForest → Bool
  | .nil => false
  | .cons (.decl p _ _ _) rest => p = prop || hasDeclDeep prop rest
  | .cons (.rule _ inner) rest => hasDeclDeep prop inner || hasDeclDeep prop rest
  | .cons (.atrule _ _ inner) rest => hasDeclDeep prop inner || hasDeclDeep prop rest

/-- `hasImportant` / `cleanValue` from the patchers: `includes('!important')`
anywhere, and `replace(/\s*!important\s*$/, '').trim()`. -/
def cleanNewValue (nv : String) : String × Bool :=
  let t := rtrimChars nv.data
  let cv :=
    if impLit.isSuffixOf t then String.mk (trimChars (rtrimChars (t.take (t.length - impLit.length))))
    else String.mk (trimChars nv.data)
  (cv, jsIncludes nv "!important")

/-- Plain-CSS `root.walkRules` pass: mutate the subtree declarations of
every rule (any depth) whose raw selector matches. -/
def cssApplyToMatching (sel prop : String) (isDelete : Bool) (value : String) (imp : Bool) :
    CssForest → CssForest
  | .nil => .nil
  | .cons (.rule s inner) rest =>
    let innerRec := cssApplyToMatching sel prop isDelete value imp inner
    let inner1 :=
      if matchSelector s sel then
        (if isDelete then removeDeclsDeep prop innerRec else setDeclsDeep prop value imp innerRec)
      else innerRec
    .cons (.rule s inner1) (cssApplyToMatching sel prop isDelete value imp rest)
  | .cons (.atrule n pr inner) rest =>
    .cons (.atrule n pr (cssApplyToMatching sel prop isDelete value imp inner))
      (cssApplyToMatching sel prop isDelete value imp rest)
  | .cons d rest => .cons d (cssApplyToMatching sel prop isDelete value imp rest)

/-- `found` for plain CSS: some rule (any depth) matches and holds a
descendant declaration of the property. -/
def cssFoundIn (sel prop : String) : CssForest → Bool
  | .nil => false
  | .cons (.rule s inner) rest =>
    (matchSelector s sel && hasDeclDeep prop inner)
      || cssFoundIn sel prop inner || cssFoundIn sel prop rest
  | .cons (.atrule _ _ inner) rest => cssFoundIn sel prop inner || cssFoundIn sel prop rest
  | .cons _ rest => cssFoundIn sel prop rest

def cssCountMatching (sel : String) : CssForest → Nat
  | .nil => 0
  | .cons (.rule s inner) rest =>
    (if matchSelector s sel then 1 else 0) + cssCountMatching sel inner + cssCountMatching sel rest
  | .cons (.atrule _ _ inner) rest => cssCountMatching sel inner + cssCountMatching sel rest
  | .cons _ rest => cssCountMatching sel rest

/-- Append `d` inside the `n`-th matching rule in pre-order (`targetRule` is
the last one assigned by the walk; `rule.append` adds at the end of the
body).  The `Option Nat` counts matches still to skip; `none` means done. -/
def cssAppendGo (sel : String) (d : CssNode) :
    Option Nat → CssForest → Option Nat × CssForest
  | st, .nil => (st, .nil)
  | st, .cons (.rule s inner) rest =>
    let hit := match st with
      | some n => if matchSelector s sel then (if n = 0 then true else false) else false
      | none => false
    let st1 : Option Nat := match st with
      | some n =>
        if matchSelector s sel then (if n = 0 then none else some (n - 1)) else some n
      | none => none
    let r1 := cssAppendGo sel d st1 inner
    let inner1 := if hit then r1.2.snoc d else r1.2
    let r2 := cssAppendGo sel d r1.1 rest
    (r2.1, .cons (.rule s inner1) r2.2)
  | st, .cons (.atrule n pr inner) rest =>
    let r1 := cssAppendGo sel d st inner
    let r2 := cssAppendGo sel d r1.1 rest
    (r2.1, .cons (.atrule n pr r1.2) r2.2)
  | st, .cons x rest =>
    let r := cssAppendGo sel d st rest
    (r.1, .cons x r.2)

/-- One change against the plain-CSS AST.  Returns `none` when the source
would throw a `TypeError` (`change.newValue.includes` on a null value inside
a running decl callback) — caught by the surrounding `try`. -/
def cssApplyOne (nodes : CssForest) (ch : DeclarationChange) :
    Option (CssForest × Bool) :=
  if ch.type = "delete" then
    some (cssApplyToMatching ch.selector ch.prop true "" false nodes,
      cssFoundIn ch.selector ch.prop nodes)
  else
    match ch.newValue with
    | none =>
      if cssFoundIn ch.selector ch.prop nodes then none
      else some (nodes, false)
    | some nv =>
      let cvhi := cleanNewValue nv
      let found := cssFoundIn ch.selector ch.prop nodes
      let nodes1 := cssApplyToMatching ch.selector ch.prop false cvhi.1 cvhi.2 nodes
      if found then some (nodes1, true)
      else
        let k := cssCountMatching ch.selector nodes1
        if ch.type = "add" && nv ≠ "" && k > 0 then
          some ((cssAppendGo ch.selector (.decl ch.prop cvhi.1 cvhi.2 0) (some (k - 1)) nodes1).2,
            true)
        else some (nodes1, false)

/-- The per-change loop shared by both patchers. -/
def patchGo (applyOne : CssForest → DeclarationChange → Option (CssForest × Bool)) :
    CssForest → List DeclarationChange → Nat → Nat → Option (CssForest × Nat × Nat)
  | nodes, [], s, f => some (nodes, s, f)
  | nodes, ch :: rest, s, f =>
    match applyOne nodes ch with
    | none => none
    | some (nodes1, found) =>
      patchGo applyOne nodes1 rest (if found then s + 1 else s) (if found then f else f + 1)

/-- A raws-free `root.toString()`; the claims never depend on the serialized
bytes, only on whether a write happens. -/
def stringifyNodes : CssForest → String
  | .nil => ""
  | .cons (.decl p v imp _) rest =>
    p ++ ": " ++ v ++ (if imp then " !important" else "") ++ "; " ++ stringifyNodes rest
  | .cons (.rule s inner) rest =>
    s ++ " " ++ String.mk [openBrace] ++ " " ++ stringifyNodes inner
      ++ String.mk [closeBrace] ++ " " ++ stringifyNodes rest
  | .cons (.atrule n pr inner) rest =>
    "@" ++ n ++ " " ++ pr ++ " " ++ String.mk [openBrace] ++ " " ++ stringifyNodes inner
      ++ String.mk [closeBrace] ++ " " ++ stringifyNodes rest

structure PatchResult where
  success : Nat
  failed : Nat
  written : Option String
deriving DecidableEq, Repr

/-- The common body of `patchMultiple`: missing file → `{0, n}`; parse
failure or a thrown callback → `{0, n}` via the catch; the file is written
once, and only when at least one change succeeded; a failed write is also
caught, yielding `{0, n}` with the original file untouched. -/
def patchMultipleWith (applyOne : CssForest → DeclarationChange → Option (CssForest × Bool)) :
    Option String → Bool → List DeclarationChange → PatchResult
  | none, _, changes => ⟨0, changes.length, none⟩
  | some content, writeOk, changes =>
    match parseRoot content with
    | .error _ => ⟨0, changes.length, none⟩
    | .ok nodes =>
      match patchGo applyOne nodes changes 0 0 with
      | none => ⟨0, changes.length, none⟩
      | some (nodes1, s, f) =>
        if s > 0 then
          if writeOk then ⟨s, f, some (stringifyNodes nodes1)⟩
          else ⟨0, changes.length, none⟩
        else ⟨s, f, none⟩

/-- `CSSPatcher.patchMultiple`. -/
def cssPatchMultiple (fileContent : Option String) (writeOk : Bool)
    (changes : List DeclarationChange) : PatchResult :=
  patchMultipleWith cssApplyOne fileContent writeOk changes

/-! SCSS patcher: `walkRulesDeep` recurses only through `rule` children
(at-rules are not entered), computing each rule's flattened selectors from
every parent variant (`&` resolution, comma splitting). -/

def resolveNested (parent s : String) : String :=
  if jsStartsWith s "&" then parent ++ dropStartChars 1 s
  else if parent ≠ "" then parent ++ " " ++ s
  else s

def fullSelectorsOf (parent sel : String) : List String :=
  ((jsSplitOn sel ',').map jsTrim).map (resolveNested parent)

def scssRuleMatches (sel : String) (parents : List String) (s : String) : Bool :=
  parents.any (fun p => (fullSelectorsOf p s).any (fun fs => matchSelector fs sel))

def scssApplyToMatching (sel prop : String) (isDelete : Bool) (value : String) (imp : Bool) :
    List String → CssForest → CssForest
  | _, .nil => .nil
  | parents, .cons (.rule s inner) rest =>
    let fulls := parents.flatMap (fun p => fullSelectorsOf p s)
    let innerRec := scssApplyToMatching sel prop isDelete value imp fulls inner
    let inner1 :=
      if fulls.any (fun fs => matchSelector fs sel) then
        (if isDelete then removeDeclsDeep prop innerRec else setDeclsDeep prop value imp innerRec)
      else innerRec
    .cons (.rule s inner1) (scssApplyToMatching sel prop isDelete value imp parents rest)
  | parents, .cons x rest => .cons x (scssApplyToMatching sel prop isDelete value imp parents rest)

def scssFoundIn (sel prop : String) : List String → CssForest → Bool
  | _, .nil => false
  | parents, .cons (.rule s inner) rest =>
    let fulls := parents.flatMap (fun p => fullSelectorsOf p s)
    (fulls.any (fun fs => matchSelector fs sel) && hasDeclDeep prop inner)
      || scssFoundIn sel prop fulls inner || scssFoundIn sel prop parents rest
  | parents, .cons _ rest => scssFoundIn sel prop parents rest

def scssCountMatching (sel : String) : List String → CssForest → Nat
  | _, .nil => 0
  | parents, .cons (.rule s inner) rest =>
    let fulls := parents.flatMap (fun p => fullSelectorsOf p s)
    (if fulls.any (fun fs => matchSelector fs sel) then 1 else 0)
      + scssCountMatching sel fulls inner + scssCountMatching sel parents rest
  | parents, .cons _ rest => scssCountMatching sel parents rest

def scssAppendGo (sel : String) (d : CssNode) :
    Option Nat → List String → CssForest → Option Nat × CssForest
  | st, _, .nil => (st, .nil)
  | st, parents, .cons (.rule s inner) rest =>
    let fulls := parents.flatMap (fun p => fullSelectorsOf p s)
    let m := fulls.any (fun fs => matchSelector fs sel)
    let hit := match st with
      | some n => if m then (if n = 0 then true else false) else false
      | none => false
    let st1 : Option Nat := match st with
      | some n => if m then (if n = 0 then none else some (n - 1)) else some n
      | none => none
    let r1 := scssAppendGo sel d st1 fulls inner
    let inner1 := if hit then r1.2.snoc d else r1.2
    let r2 := scssAppendGo sel d r1.1 parents rest
    (r2.1, .cons (.rule s inner1) r2.2)
  | st, parents, .cons x rest =>
    let r := scssAppendGo sel d st parents rest
    (r.1, .cons x r.2)

/-- One change against the SCSS AST.  The optional chaining
(`change.newValue?.includes`) makes the null-value case non-throwing: the
declaration is overwritten with the (unreachable in agent use) undefined
value, modelled as the empty string. -/
def scssApplyOne (nodes : CssForest) (ch : DeclarationChange) :
    Option (CssForest × Bool) :=
  if ch.type = "delete" then
    some (scssApplyToMatching ch.selector ch.prop true "" false [""] nodes,
      scssFoundIn ch.selector ch.prop [""] nodes)
  else
    let cvhi := match ch.newValue with
      | some nv => cleanNewValue nv
      | none => ("", false)
    let found := scssFoundIn ch.selector ch.prop [""] nodes
    let nodes1 := scssApplyToMatching ch.selector ch.prop false cvhi.1 cvhi.2 [""] nodes
    if found then some (nodes1, true)
    else
      let k := scssCountMatching ch.selector [""] nodes1
      match ch.newValue with
      | some nv =>
        if ch.type = "add" && nv ≠ "" && k > 0 then
          some ((scssAppendGo ch.selector (.decl ch.prop cvhi.1 cvhi.2 0) (some (k - 1)) [""] nodes1).2,
            true)
        else some (nodes1, false)
      | none => some (nodes1, false)

/-- `SCSSPatcher.patchMultiple`. -/
def scssPatchMultiple (fileContent : Option String) (writeOk : Bool)
    (changes : List DeclarationChange) : PatchResult :=
  patchMultipleWith scssApplyOne fileContent writeOk changes

/-! ## agent.js : handleStyleSheetChange / handleCSSModuleChanges

The orchestrator's change handler, as a pure function of the registry, the
loop-guard state, the filesystem and the I/O oracles.  Its observable
effects are returned in a `HandleOutcome`: whether the guard swallowed the
event, whether the differ ran, the computed changes, the patch requests
handed to the file queue (path, scss-profile flag, changes — the
`patchMultiple` call on each follows), and the text stored into the
registry, if any.  `sourceMapResolver.findOriginalSource` decodes base64
JSON source maps read from disk; it is modelled as an oracle
`smOriginal : cssPath → selector → cssText → Option sourcePath`
(returning `none` models a stylesheet without a usable source map, the
resolver's silent-degrade path). -/

structure AgentEnv where
  urlEnv : UrlResolverEnv
  selEnv : SelectorEnv
  smOriginal : String → String → String → Option String

structure HandleOutcome where
  ignored : Bool
  ranDiffer : Bool
  changes : List DeclarationChange
  patches : List (String × Bool × List DeclarationChange)
  registryUpdated : Option String
deriving DecidableEq, Repr

/-- `/\.(scss|sass)$/`. -/
def extScssSass (p : String) : Bool :=
  jsEndsWith p ".scss" || jsEndsWith p ".sass"

/-- `/\.(scss|sass|less)$/`. -/
def extScssSassLess (p : String) : Bool :=
  jsEndsWith p ".scss" || jsEndsWith p ".sass" || jsEndsWith p ".less"

/-- Insertion-ordered grouping of `(filePath, change)` pairs
(`changesByFile`, a JS `Map` of arrays). -/
def addPairToGroup : List (String × List DeclarationChange) → String → DeclarationChange →
    List (String × List DeclarationChange)
  | [], k, c => [(k, [c])]
  | (k0, l) :: rest, k, c =>
    if k0 = k then (k0, l ++ [c]) :: rest else (k0, l) :: addPairToGroup rest k c

def groupChangePairs (prs : List (String × DeclarationChange)) :
    List (String × List DeclarationChange) :=
  prs.foldl (fun m kc => addPairToGroup m kc.1 kc.2) []

/-- `handleCSSModuleChanges`: resolve each change's selector through the
selector resolver, group the resolved ones by module file; `none` when
nothing resolved (the caller then falls back). -/
def handleCSSModuleChanges (env : AgentEnv) (changes : List DeclarationChange) :
    Option (List (String × Bool × List DeclarationChange)) :=
  let byFile := groupChangePairs (changes.filterMap (fun ch =>
    if ch.type = "change" || ch.type = "add" || ch.type = "delete" then
      (selectorResolve env.selEnv ch.selector).map
        (fun r => (r.1, { ch with selector := r.2 }))
    else none))
  if byFile = [] then none
  else some (byFile.map (fun kv => (kv.1, extScssSass kv.1, kv.2)))

/-- The tail of `handleStyleSheetChange` once a local path is fixed: decide
the SCSS profile by extension, otherwise try the source-map reverse-mapping
of the first change to switch to an authored scss/sass/less file; then
enqueue the patch and store the new text. -/
def finishPatch (env : AgentEnv) (p : String) (changes : List DeclarationChange)
    (newText : String) : HandleOutcome :=
  let pu :=
    if extScssSass p then (p, true)
    else
      match changes.head? with
      | some fc =>
        (match env.smOriginal p fc.selector newText with
         | some src => if extScssSassLess src then (src, true) else (p, false)
         | none => (p, false))
      | none => (p, false)
  ⟨false, true, changes, [(pu.1, pu.2, changes)], some newText⟩

/-- `handleStyleSheetChange(styleSheetId, freshText)` with the fresh text
supplied (the polling path; the event path differs only in fetching the
text first). -/
def handleChangeModel (env : AgentEnv) (hashFn : String → String) (now : Nat)
    (guard : LoopGuard) (reg : StyleSheetRegistry) (styleSheetId newText : String) :
    HandleOutcome :=
  let oldText := reg.getPreviousText styleSheetId
  if (LoopGuard.shouldIgnoreStyleSheet hashFn now guard styleSheetId newText).1 then
    ⟨true, false, [], [], none⟩
  else if oldText = none || oldText = some newText then
    ⟨false, false, [], [], some newText⟩
  else
    let changes := findChangedDeclarations (oldText.getD "") newText
    if changes = [] then ⟨false, true, changes, [], some newText⟩
    else
      let sourceURL := reg.getSourceURL styleSheetId
      let viteDevId := reg.getViteDevId styleSheetId
      let originalSource := reg.getOriginalSource styleSheetId
      let localPath := jsOrElse viteDevId (jsOrElse originalSource (urlResolve env.urlEnv sourceURL))
      let isNextJSBundle := match localPath with
        | some p => jsIncludes p "/.next/"
        | none => false
      if localPath = none || isNextJSBundle then
        match handleCSSModuleChanges env changes with
        | some modPatches => ⟨false, true, changes, modPatches, some newText⟩
        | none =>
          match localPath with
          | none => ⟨false, true, changes, [], some newText⟩
          | some p => finishPatch env p changes newText
      else finishPatch env (localPath.getD "") changes newText

/-! ## Concrete scenarios used by the counterexamples and witnesses -/

def idHash : String → String := fun s => s

def exNextPath : String := "/proj/.next/static/css/app/layout.css"

/-- A Next.js project whose only existing file is the built CSS bundle. -/
def exC1UrlEnv : UrlResolverEnv :=
  ⟨"/proj", "http://localhost:3000", [], fun p => p = exNextPath⟩

def exAgentEnv : AgentEnv :=
  ⟨exC1UrlEnv, ⟨"/proj", []⟩, fun _ _ _ => none⟩

def exC1Header : StyleSheetHeader :=
  ⟨"S1", "http://localhost:3000/_next/static/css/app/layout.css", false, ""⟩

def exC1OldText : String := ".btn \x7b color: red; \x7d"

def exC1NewText : String := ".btn \x7b color: blue; \x7d"

def exC1Reg : StyleSheetRegistry :=
  ⟨[("S1", ⟨exC1Header, some exC1OldText, none, none, none⟩)]⟩

def exEmptyGuard : LoopGuard := ⟨[], 2000⟩

def exC1Outcome : HandleOutcome :=
  handleChangeModel exAgentEnv idHash 0 exEmptyGuard exC1Reg "S1" exC1NewText

def exC1Change : DeclarationChange :=
  ⟨"change", ".btn", "color", some "red", some "blue", some false, ⟨1, 7⟩⟩

/-- A project where both the built bundle and an authored candidate exist. -/
def exC4UrlEnv : UrlResolverEnv :=
  ⟨"/proj", "http://localhost:3000", [],
    fun p => p = exNextPath || p = "/proj/app/globals.css"⟩

def exC2OldText : String := ".a \x7b color: red; \x7d"

def exC2NewText : String := ".a \x7b"

def exC2Reg : StyleSheetRegistry :=
  ⟨[("S2", ⟨⟨"S2", "", true, ""⟩, some exC2OldText, none, some "/proj/styles/app.scss", none⟩)]⟩

def exC2Outcome : HandleOutcome :=
  handleChangeModel exAgentEnv idHash 0 exEmptyGuard exC2Reg "S2" exC2NewText

def exC2Delete : DeclarationChange :=
  ⟨"delete", ".a", "color", some "red", none, none, ⟨1, 5⟩⟩

def exC3NewText : String := ".a \x7b color: red; \x7d"

/-- A guard holding a fresh write record for sheet S3 whose hash matches the
incoming text (the echo of the agent's own write). -/
def exC3Guard : LoopGuard := ⟨[("sheet:S3", ⟨exC3NewText, 100⟩)], 2000⟩

def exC3Reg : StyleSheetRegistry :=
  ⟨[("S3", ⟨⟨"S3", "", true, ""⟩, some ".a \x7b color: blue; \x7d", none, none, none⟩)]⟩

def exC3Outcome : HandleOutcome :=
  handleChangeModel exAgentEnv idHash 500 exC3Guard exC3Reg "S3" exC3NewText

/-- A registry whose sheet S4 stores the empty string as its text. -/
def exC10Reg : StyleSheetRegistry :=
  ⟨[("S4", ⟨⟨"S4", "", true, ""⟩, some "", none, none, none⟩)]⟩

def exC10Outcome : HandleOutcome :=
  handleChangeModel exAgentEnv idHash 0 exEmptyGuard exC10Reg "S4" exC3NewText

/-! ## Predicates used by the claim statements -/

/-- The spec's kind invariants on an emitted `DeclarationChange` (the code
spells the modify kind `"change"`). -/
def kindInvariants (c : DeclarationChange) : Prop :=
  (c.type = "add" → c.oldValue = none ∧ c.newValue ≠ none)
  ∧ (c.type = "change" → c.oldValue ≠ none ∧ c.newValue ≠ none ∧ c.oldValue ≠ c.newValue)
  ∧ (c.type = "delete" → c.oldValue ≠ none ∧ c.newValue = none)
  ∧ (c.type = "add" ∨ c.type = "change" ∨ c.type = "delete")

/-- Invariant of parsed declaration records: when postcss did not set the
important flag, the value cannot end with the `!important` literal (it
would have been stripped). -/
def declRecInv (d : DeclRecord) : Prop :=
  d.important = false → impLit.isSuffixOf d.value.data = false

/-- The same invariant over the nodes of a parsed tree. -/
def nodesInvB : CssForest → Bool
  | .nil => true
  | .cons (.decl _ v imp _) rest => (imp || !(impLit.isSuffixOf v.data)) && nodesInvB rest
  | .cons (.rule _ inner) rest => nodesInvB inner && nodesInvB rest
  | .cons (.atrule _ _ inner) rest => nodesInvB inner && nodesInvB rest

/-- The behaviour C9 asserts of a `patchMultiple` result: the counts total
the change count; a missing file, parse failure or write failure yields
`{success: 0, failed: n}`; the file is written only when a change
succeeded. -/
def patchSpec (content : Option String) (writeOk : Bool) (n : Nat) (r : PatchResult) : Prop :=
  r.success + r.failed = n
  ∧ (content = none → r = ⟨0, n, none⟩)
  ∧ (∀ s, content = some s → parseFailed s = true → r = ⟨0, n, none⟩)
  ∧ (writeOk = false → r.success = 0 ∧ r.failed = n)
  ∧ (r.written ≠ none → 0 < r.success)
  ∧ (r.success = 0 → r.written = none)

/-- A project containing a lowercase-named CSS module file. -/
def exC8SelEnv : SelectorEnv :=
  ⟨"/proj", [("/proj/src/menu.module.scss", ".item \x7b color: red; \x7d")]⟩

/-! # Theorems -/

/-- Helper: `firstExisting` only returns members that exist. -/
theorem firstExisting_mem (fsE : String → Bool) :
    ∀ (l : List String) (r : String), firstExisting fsE l = some r → r ∈ l ∧ fsE r = true := by
  intro l
  induction l with
  | nil => intro r h; simp [firstExisting] at h
  | cons p ps ih =>
    intro r h
    by_cases hp : fsE p = true
    · simp [firstExisting, hp] at h
      exact ⟨by simp [h], h ▸ hp⟩
    · simp [firstExisting, hp] at h
      rcases ih r h with ⟨hm, he⟩
      exact ⟨List.mem_cons_of_mem _ hm, he⟩

/-- C3 counterexample: the loop guard says ignore, yet `handleStyleSheetChange`
returns without storing the new text — the registry still holds the old
text, contradicting the claim that the stored text is updated to new_text. -/
theorem claim_C3_counterexample :
    (LoopGuard.shouldIgnoreStyleSheet idHash 500 exC3Guard "S3" exC3NewText).1 = true
    ∧ exC3Outcome = ⟨true, false, [], [], none⟩
    ∧ StyleSheetRegistry.getPreviousText exC3Reg "S3" ≠ some exC3NewText := by
  decide

/-- C3 (amended): whenever the loop guard reports that new_text should be
ignored, `handleStyleSheetChange` returns immediately — without invoking the
differ, without enqueuing any patch, and without updating the registry's
stored text (the text update on the ignore path is performed by the polling
caller, not by handle_change). -/
theorem claim_C3_amended (env : AgentEnv) (hashFn : String → String) (now : Nat)
    (guard : LoopGuard) (reg : StyleSheetRegistry) (styleSheetId newText : String)
    (h : (LoopGuard.shouldIgnoreStyleSheet hashFn now guard styleSheetId newText).1 = true) :
    handleChangeModel env hashFn now guard reg styleSheetId newText
      = ⟨true, false, [], [], none⟩ := by
  unfold handleChangeModel
  simp [h]

/-- C3 witness: the amended theorem applied to the concrete echo scenario. -/
theorem claim_C3_witness :
    handleChangeModel exAgentEnv idHash 500 exC3Guard exC3Reg "S3" exC3NewText
      = ⟨true, false, [], [], none⟩ :=
  claim_C3_amended exAgentEnv idHash 500 exC3Guard exC3Reg "S3" exC3NewText (by decide)

/-- C8 counterexample: a selector whose component segment begins with the
lowercase letter m is recognised by `parseCSSModuleSelector` (and resolved
by `SelectorResolver.resolve` against a project containing
menu.module.scss), contradicting the claim that it returns none. -/
theorem claim_C8_counterexample :
    parseCSSModuleSelector ".menu_item__abc123"
      = some ⟨"menu", "item", ".item", false, []⟩
    ∧ selectorResolve exC8SelEnv ".menu_item__abc123"
      = some ("/proj/src/menu.module.scss", ".item") := by
  decide

/-- C8 (amended): the component segment must start with a letter of either
case — the regexes use `[A-Za-z]`: capital- and lowercase-initial components
are both recognised, while a digit-initial component or a plain class
selector is not. -/
theorem claim_C8_amended :
    parseCSSModuleSelector ".Menu_item__abc123" = some ⟨"Menu", "item", ".item", false, []⟩
    ∧ parseCSSModuleSelector ".menu_item__abc123" ≠ none
    ∧ parseCSSModuleSelector ".1menu_item__abc123" = none
    ∧ parseCSSModuleSelector ".btn" = none := by
  decide

/-- C4 counterexample: with both the built bundle and the authored candidate
app/globals.css on disk, `findNextJSSource` returns the path inside
`.next/static/css/` even though an authored candidate exists — contradicting
the claim that the `.next` path is returned only when no candidate exists. -/
theorem claim_C4_counterexample :
    findNextJSSource exC4UrlEnv "app/layout.css" = some exNextPath
    ∧ exC4UrlEnv.fsExists "/proj/app/globals.css" = true
    ∧ "/proj/app/globals.css" ∈ nextAuthoredCandidates exC4UrlEnv "app/layout.css" := by
  decide

/-- C4 (amended): `findNextJSSource` returns the built CSS inside
`.next/static/css/` whenever that file exists, regardless of authored
candidates; only when it is absent does it probe the authored candidates in
order (for layout.css the globals/global css/scss list, for page.css the
sibling module list), returning the first existing one — and none (not the
`.next` path) when no candidate exists. -/
theorem claim_C4_amended (env : UrlResolverEnv) (cssPath : String) :
    (env.fsExists (nextBuildPathOf env cssPath) = true →
      findNextJSSource env cssPath = some (nextBuildPathOf env cssPath))
    ∧ (env.fsExists (nextBuildPathOf env cssPath) = false →
      findNextJSSource env cssPath
        = firstExisting env.fsExists (nextAuthoredCandidates env cssPath))
    ∧ (∀ r, firstExisting env.fsExists (nextAuthoredCandidates env cssPath) = some r →
        r ∈ nextAuthoredCandidates env cssPath ∧ env.fsExists r = true) := by
  refine ⟨?_, ?_, ?_⟩
  · intro h
    unfold findNextJSSource
    rw [h]
    simp
  · intro h
    unfold findNextJSSource nextAuthoredCandidates
    rw [h]
    simp only [Bool.false_eq_true, if_false]
    split
    · rfl
    · split
      · rfl
      · rfl
  · intro r h
    exact firstExisting_mem env.fsExists _ r h

/-- C4 witness: the amended theorem at the concrete two-file project. -/
theorem claim_C4_witness :
    findNextJSSource exC4UrlEnv "app/layout.css"
      = some (nextBuildPathOf exC4UrlEnv "app/layout.css") :=
  (claim_C4_amended exC4UrlEnv "app/layout.css").1 (by decide)

/-- C5: `should_ignore(key, content)` returns true iff the guard holds an
entry for the key whose timestamp is within TTL of now and whose stored hash
equals the hash of the content (MD5 is the abstract `hashFn`); an entry
older than TTL is purged and the call returns false; with no entry it
returns false and leaves the state untouched. -/
theorem claim_C5_should_ignore (hashFn : String → String) (now : Nat) (g : LoopGuard)
    (key content : String) :
    ((LoopGuard.shouldIgnore hashFn now g key content).1 = true ↔
      ∃ r, LoopGuard.findRec g.recentWrites key = some r
        ∧ now - r.timestamp ≤ g.ttl ∧ r.hash = hashFn content)
    ∧ (LoopGuard.findRec g.recentWrites key = none →
        LoopGuard.shouldIgnore hashFn now g key content = (false, g))
    ∧ (∀ r, LoopGuard.findRec g.recentWrites key = some r → now - r.timestamp > g.ttl →
        (LoopGuard.shouldIgnore hashFn now g key content).1 = false
        ∧ (LoopGuard.shouldIgnore hashFn now g key content).2.recentWrites
            = LoopGuard.eraseRec g.recentWrites key) := by
  cases hf : LoopGuard.findRec g.recentWrites key with
  | none =>
    refine ⟨?_, ?_, ?_⟩
    · simp [LoopGuard.shouldIgnore, hf]
    · intro _; simp [LoopGuard.shouldIgnore, hf]
    · intro r hr; cases hr
  | some r0 =>
    by_cases ht : now - r0.timestamp > g.ttl
    · refine ⟨?_, ?_, ?_⟩
      · simp only [LoopGuard.shouldIgnore, hf, ht, if_pos]
        constructor
        · intro h; cases h
        · rintro ⟨r, hr, hle, _⟩
          cases hr
          omega
      · intro h; cases h
      · intro r hr hgt
        cases hr
        simp [LoopGuard.shouldIgnore, hf, ht]
    · refine ⟨?_, ?_, ?_⟩
      · simp [LoopGuard.shouldIgnore, hf, ht]
        intro _
        omega
      · intro h; cases h
      · intro r hr hgt
        cases hr
        omega

/-- C5 witness: the fresh matching record of the echo scenario is ignored. -/
theorem claim_C5_witness :
    (LoopGuard.shouldIgnore idHash 500 exC3Guard "sheet:S3" exC3NewText).1 = true :=
  ((claim_C5_should_ignore idHash 500 exC3Guard "sheet:S3" exC3NewText).1).mpr
    ⟨⟨exC3NewText, 100⟩, by decide, by decide, by decide⟩

/-- C10: `previous_text(id)` is none exactly when the sheet is unregistered,
its text was never stored, or the stored text is the empty string (the `||
null` makes `""` falsy); consequently `handle_change` on a sheet whose
stored text is `""` takes the no-previous-snapshot early return, storing the
new text without running the differ. -/
theorem claim_C10_previous_text :
    (∀ (reg : StyleSheetRegistry) (styleSheetId : String),
      reg.getPreviousText styleSheetId = none ↔
        (StyleSheetRegistry.findSheet reg.sheets styleSheetId = none
         ∨ ∃ sheet, StyleSheetRegistry.findSheet reg.sheets styleSheetId = some sheet
             ∧ (sheet.text = none ∨ sheet.text = some "")))
    ∧ (∀ (env : AgentEnv) (hashFn : String → String) (now : Nat) (guard : LoopGuard)
        (reg : StyleSheetRegistry) (styleSheetId newText : String) (sheet : SheetRecord),
        StyleSheetRegistry.findSheet reg.sheets styleSheetId = some sheet →
        sheet.text = some "" →
        (LoopGuard.shouldIgnoreStyleSheet hashFn now guard styleSheetId newText).1 = false →
        handleChangeModel env hashFn now guard reg styleSheetId newText
          = ⟨false, false, [], [], some newText⟩) := by
  constructor
  · intro reg styleSheetId
    cases hf : StyleSheetRegistry.findSheet reg.sheets styleSheetId with
    | none => simp [StyleSheetRegistry.getPreviousText, hf]
    | some sheet =>
      cases htx : sheet.text with
      | none => simp [StyleSheetRegistry.getPreviousText, hf, htx, strOrNone]
      | some t =>
        by_cases he : t = ""
        · subst he; simp [StyleSheetRegistry.getPreviousText, hf, htx, strOrNone]
        · simp [StyleSheetRegistry.getPreviousText, hf, htx, strOrNone, he]
  · intro env hashFn now guard reg styleSheetId newText sheet hs ht hg
    have hprev : reg.getPreviousText styleSheetId = none := by
      simp [StyleSheetRegistry.getPreviousText, hs, ht, strOrNone]
    unfold handleChangeModel
    rw [hg]
    simp [hprev]

/-- C10 witness: a sheet whose stored text is the empty string takes the
no-previous-snapshot path. -/
theorem claim_C10_witness :
    handleChangeModel exAgentEnv idHash 0 exEmptyGuard exC10Reg "S4" exC3NewText
      = ⟨false, false, [], [], some exC3NewText⟩ :=
  claim_C10_previous_text.2 exAgentEnv idHash 0 exEmptyGuard exC10Reg "S4" exC3NewText
    ⟨⟨"S4", "", true, ""⟩, some "", none, none, none⟩ (by decide) (by decide) (by decide)

/-- Helper: a parse failure makes `parseDeclarations` return the empty
list (the catch branch). -/
theorem parseDeclarations_of_failed (t : String) (h : parseFailed t = true) :
    parseDeclarations t = [] := by
  unfold parseFailed at h
  unfold parseDeclarations
  cases hp : parseRoot t with
  | error e => rfl
  | ok nodes => rw [hp] at h; cases h

/-- Helper: everything in `deletesPart` is a delete record. -/
theorem deletesPart_mem (newMap : List (String × List DeclRecord)) :
    ∀ (entries : List (String × List DeclRecord)) (c : DeclarationChange),
      c ∈ deletesPart newMap entries → ∃ od, c = mkDeleteChange od := by
  intro entries
  induction entries with
  | nil => intro c h; simp [deletesPart] at h
  | cons kl rest ih =>
    intro c h
    obtain ⟨k, l⟩ := kl
    rw [deletesPart] at h
    rcases List.mem_append.mp h with h1 | h1
    · rcases List.mem_map.mp h1 with ⟨od, _, hod⟩
      exact ⟨od, hod.symm⟩
    · exact ih c h1

/-- C2 counterexample: the new text fails to parse, yet the change cycle is
not aborted — the differ (whose `parseDeclarations` swallowed the failure)
turns all old declarations into deletes, a patch on the resolved source file
is enqueued, and the registry's stored text is updated — contradicting the
claim that no patch is attempted and the stored text is left unchanged. -/
theorem claim_C2_counterexample :
    parseFailed exC2NewText = true
    ∧ exC2Outcome.patches = [("/proj/styles/app.scss", true, [exC2Delete])]
    ∧ exC2Outcome.registryUpdated = some exC2NewText := by
  decide

/-- C2 (amended): a parse failure is caught inside `parseDeclarations`,
which logs and returns an empty declaration list; the cycle continues: when
the new text fails to parse every emitted change is a delete of an old
declaration, and in every non-ignored invocation `handle_change` stores the
new text in the registry (so the failed text is not retried). -/
theorem claim_C2_amended :
    (∀ oldCss newCss, parseFailed newCss = true →
      ∀ c ∈ findChangedDeclarations oldCss newCss, c.type = "delete")
    ∧ (∀ (env : AgentEnv) (hashFn : String → String) (now : Nat) (guard : LoopGuard)
        (reg : StyleSheetRegistry) (styleSheetId newText : String),
        (LoopGuard.shouldIgnoreStyleSheet hashFn now guard styleSheetId newText).1 = false →
        (handleChangeModel env hashFn now guard reg styleSheetId newText).registryUpdated
          = some newText) := by
  constructor
  · intro oldCss newCss hfail c hc
    unfold findChangedDeclarations at hc
    rw [parseDeclarations_of_failed newCss hfail] at hc
    simp only [groupDecls, List.foldl_nil] at hc
    rw [changesPart] at hc
    simp only [List.nil_append] at hc
    rcases deletesPart_mem _ _ c hc with ⟨od, rfl⟩
    rfl
  · intro env hashFn now guard reg styleSheetId newText hg
    unfold handleChangeModel
    rw [hg]
    simp only [Bool.false_eq_true, if_false]
    split
    · rfl
    · split
      · rfl
      · split
        · split
          · rfl
          · split
            · rfl
            · unfold finishPatch
              rfl
        · unfold finishPatch
          rfl

/-- C1 counterexample: a Next.js stylesheet whose selectors are not CSS
modules — handle_change resolves the URL to the built bundle inside
`.next/static/css/`, CSS-module resolution finds nothing, and the patch is
enqueued on the `.next` path; `patchMultiple` succeeds on it and writes the
file — contradicting the claim that no patcher write ever targets `.next/`. -/
theorem claim_C1_counterexample :
    exC1Outcome.patches = [(exNextPath, false, [exC1Change])]
    ∧ jsIncludes exNextPath "/.next/" = true
    ∧ (cssPatchMultiple (some exC1OldText) true [exC1Change]).success = 1
    ∧ (cssPatchMultiple (some exC1OldText) true [exC1Change]).written ≠ none := by
  decide

/-- C1 (amended): the agent has no directory deny-list: when the resolved
local path is the bundled CSS under `.next/` (which the Next.js resolver
returns for direct modification), and selector-based CSS-module resolution
yields nothing and no source map redirects it, handle_change hands exactly
that `.next` path to the patcher. -/
theorem claim_C1_amended (env : AgentEnv) (hashFn : String → String) (now : Nat)
    (guard : LoopGuard) (reg : StyleSheetRegistry) (styleSheetId newText t p : String)
    (hguard : (LoopGuard.shouldIgnoreStyleSheet hashFn now guard styleSheetId newText).1 = false)
    (hold : reg.getPreviousText styleSheetId = some t)
    (hne : t ≠ newText)
    (hch : findChangedDeclarations t newText ≠ [])
    (hlocal : jsOrElse (reg.getViteDevId styleSheetId)
        (jsOrElse (reg.getOriginalSource styleSheetId)
          (urlResolve env.urlEnv (reg.getSourceURL styleSheetId))) = some p)
    (hnext : jsIncludes p "/.next/" = true)
    (hmod : handleCSSModuleChanges env (findChangedDeclarations t newText) = none)
    (hscss : extScssSass p = false)
    (hsm : ∀ sel, env.smOriginal p sel newText = none) :
    (handleChangeModel env hashFn now guard reg styleSheetId newText).patches
      = [(p, false, findChangedDeclarations t newText)] := by
  unfold handleChangeModel
  rw [hguard]
  simp only [Bool.false_eq_true, if_false]
  rw [hold]
  simp [hne, hch, hlocal, hnext, hmod, hscss, finishPatch, hsm]
  cases hh : (findChangedDeclarations t newText).head? <;> simp

/-- C1 witness: the amended theorem at the concrete bundle scenario. -/
theorem claim_C1_witness :
    (handleChangeModel exAgentEnv idHash 0 exEmptyGuard exC1Reg "S1" exC1NewText).patches
      = [(exNextPath, false, findChangedDeclarations exC1OldText exC1NewText)] :=
  claim_C1_amended exAgentEnv idHash 0 exEmptyGuard exC1Reg "S1" exC1NewText exC1OldText exNextPath
    (by decide) (by decide) (by decide) (by decide) (by decide) (by decide) (by decide) (by decide)
    (fun _ => rfl)

/-- C2 witness: the amended theorem applied to the unclosed-block scenario. -/
theorem claim_C2_witness :
    exC2Delete.type = "delete"
    ∧ (handleChangeModel exAgentEnv idHash 0 exEmptyGuard exC2Reg "S2" exC2NewText).registryUpdated
      = some exC2NewText :=
  ⟨claim_C2_amended.1 exC2OldText exC2NewText (by decide) exC2Delete (by decide),
   claim_C2_amended.2 exAgentEnv idHash 0 exEmptyGuard exC2Reg "S2" exC2NewText (by decide)⟩

/-- Helper: the per-change loop counts one success or one failure per
change. -/
theorem patchGo_counts (applyOne : CssForest → DeclarationChange → Option (CssForest × Bool)) :
    ∀ (changes : List DeclarationChange) (nodes : CssForest) (s f : Nat)
      (out : CssForest × Nat × Nat),
      patchGo applyOne nodes changes s f = some out → out.2.1 + out.2.2 = s + f + changes.length := by
  intro changes
  induction changes with
  | nil =>
    intro nodes s f out h
    rw [patchGo] at h
    cases h
    simp
  | cons ch rest ih =>
    intro nodes s f out h
    rw [patchGo] at h
    cases ha : applyOne nodes ch with
    | none => rw [ha] at h; cases h
    | some nb =>
      rw [ha] at h
      obtain ⟨nodes1, found⟩ := nb
      have hrec := ih nodes1 _ _ out h
      cases found <;> simp at hrec <;> simp [hrec] <;> omega

theorem patchMultipleWith_spec (applyOne : CssForest → DeclarationChange → Option (CssForest × Bool))
    (content : Option String) (writeOk : Bool) (changes : List DeclarationChange) :
    patchSpec content writeOk changes.length (patchMultipleWith applyOne content writeOk changes) := by
  cases content with
  | none =>
    unfold patchSpec patchMultipleWith
    refine ⟨by simp, fun _ => rfl, ?_, fun _ => ⟨rfl, rfl⟩, ?_, fun _ => rfl⟩
    · intro s hs; cases hs
    · intro h; exact absurd rfl h
  | some s0 =>
    unfold patchSpec patchMultipleWith
    dsimp only
    cases hp : parseRoot s0 with
    | error e =>
      refine ⟨by simp, ?_, ?_, fun _ => ⟨rfl, rfl⟩, ?_, fun _ => rfl⟩
      · intro h; cases h
      · intro s hs _; cases hs; rfl
      · intro h; exact absurd rfl h
    | ok nodes =>
      have hnf : parseFailed s0 = false := by unfold parseFailed; rw [hp]
      dsimp only
      cases hg : patchGo applyOne nodes changes 0 0 with
      | none =>
        refine ⟨by simp, ?_, ?_, fun _ => ⟨rfl, rfl⟩, ?_, fun _ => rfl⟩
        · intro h; cases h
        · intro s hs hpf; cases hs; rfl
        · intro h; exact absurd rfl h
      | some out =>
        obtain ⟨nodes1, s1, f1⟩ := out
        dsimp only
        have hc : s1 + f1 = changes.length := by
          have := patchGo_counts applyOne changes nodes 0 0 _ hg
          simpa using this
        by_cases hs1 : s1 > 0
        · cases writeOk with
          | false =>
            rw [if_pos hs1, if_neg (by simp)]
            refine ⟨by simp, ?_, ?_, fun _ => ⟨rfl, rfl⟩, ?_, fun _ => rfl⟩
            · intro h; cases h
            · intro s hs hpf; cases hs; simp [hnf] at hpf
            · intro h; exact absurd rfl h
          | true =>
            rw [if_pos hs1, if_pos rfl]
            refine ⟨hc, ?_, ?_, ?_, ?_, ?_⟩
            · intro h; cases h
            · intro s hs hpf; cases hs; simp [hnf] at hpf
            · intro h; cases h
            · intro _; exact hs1
            · intro h; exfalso; simp at h; omega
        · rw [if_neg hs1]
          have hs0 : s1 = 0 := by omega
          subst hs0
          refine ⟨hc, ?_, ?_, ?_, ?_, fun _ => rfl⟩
          · intro h; cases h
          · intro s hs hpf; cases hs; simp [hnf] at hpf
          · refine fun _ => ⟨rfl, ?_⟩
            show f1 = changes.length
            omega
          · intro h; exact absurd rfl h

/-- C9: for every `patchMultiple` call on either patcher the counts satisfy
`success + failed = changes.length` and the call never raises (it is a total
function of its inputs): a missing file, a parse failure or a write error
yields `{success: 0, failed: n}`, and the target file is written only when
`success > 0` — when every change fails the file is untouched. -/
theorem claim_C9_patch_multiple (content : Option String) (writeOk : Bool)
    (changes : List DeclarationChange) :
    patchSpec content writeOk changes.length (cssPatchMultiple content writeOk changes)
    ∧ patchSpec content writeOk changes.length (scssPatchMultiple content writeOk changes) :=
  ⟨patchMultipleWith_spec cssApplyOne content writeOk changes,
   patchMultipleWith_spec scssApplyOne content writeOk changes⟩

/-- C9 witness: a missing file and a failing write at concrete inputs. -/
theorem claim_C9_witness :
    cssPatchMultiple none true [exC1Change] = ⟨0, 1, none⟩
    ∧ (scssPatchMultiple (some exC1OldText) false [exC1Change]).success = 0 :=
  ⟨(claim_C9_patch_multiple none true [exC1Change]).1.2.1 rfl,
   ((claim_C9_patch_multiple (some exC1OldText) false [exC1Change]).2.2.2.2.1 rfl).1⟩

theorem emitForKey_self : ∀ l : List DeclRecord, emitForKey l l = [] := by
  intro l
  induction l with
  | nil => rfl
  | cons d ds ih => simp [emitForKey, ih]

theorem keys_addToGroup (k : String) (d : DeclRecord) :
    ∀ m : List (String × List DeclRecord),
      (addToGroup m k d).map Prod.fst
        = if k ∈ m.map Prod.fst then m.map Prod.fst else m.map Prod.fst ++ [k] := by
  intro m
  induction m with
  | nil => simp [addToGroup]
  | cons kl rest ih =>
    obtain ⟨k0, l⟩ := kl
    by_cases hk : k0 = k
    · subst hk
      simp [addToGroup]
    · rw [addToGroup]
      rw [if_neg hk]
      by_cases hmem : k ∈ rest.map Prod.fst
      · simp [hmem, ih, hk, Ne.symm hk]
      · simp [hmem, ih, hk, Ne.symm hk]

theorem nodupKeys_addToGroup (k : String) (d : DeclRecord) (m : List (String × List DeclRecord))
    (h : (m.map Prod.fst).Nodup) : ((addToGroup m k d).map Prod.fst).Nodup := by
  rw [keys_addToGroup]
  by_cases hmem : k ∈ m.map Prod.fst
  · simpa [hmem]
  · simp [hmem, List.nodup_append, h]

theorem nodupKeys_groupDecls (ds : List DeclRecord) : ((groupDecls ds).map Prod.fst).Nodup := by
  unfold groupDecls
  suffices h : ∀ (ds : List DeclRecord) (m : List (String × List DeclRecord)),
      (m.map Prod.fst).Nodup →
      ((ds.foldl (fun m d => addToGroup m (declKey d) d) m).map Prod.fst).Nodup by
    exact h ds [] (by simp)
  intro ds
  induction ds with
  | nil => intro m hm; simpa
  | cons d rest ih =>
    intro m hm
    simp only [List.foldl_cons]
    exact ih _ (nodupKeys_addToGroup _ _ _ hm)

theorem findGroup_self (k : String) (l : List DeclRecord) :
    ∀ m : List (String × List DeclRecord),
      (m.map Prod.fst).Nodup → (k, l) ∈ m → findGroup m k = l := by
  intro m
  induction m with
  | nil => intro _ hm; cases hm
  | cons kl rest ih =>
    intro hnd hm
    obtain ⟨k0, l0⟩ := kl
    rcases List.mem_cons.mp hm with h | h
    · cases h
      simp [findGroup]
    · have hkrest : k ∈ rest.map Prod.fst := List.mem_map.mpr ⟨(k, l), h, rfl⟩
      have hk0 : k0 ≠ k := by
        intro he
        subst he
        exact (List.nodup_cons.mp (by simpa using hnd)).1 hkrest
      rw [findGroup, if_neg hk0]
      exact ih (List.nodup_cons.mp (by simpa using hnd)).2 h

theorem changesPart_self (bigM : List (String × List DeclRecord)) :
    ∀ entries, (∀ kl ∈ entries, findGroup bigM kl.1 = kl.2) → changesPart bigM entries = [] := by
  intro entries
  induction entries with
  | nil => intro _; rfl
  | cons kl rest ih =>
    intro h
    obtain ⟨k, l⟩ := kl
    rw [changesPart]
    rw [h (k, l) (List.mem_cons_self _ _)]
    rw [emitForKey_self]
    simp only [List.nil_append]
    exact ih (fun kl2 h2 => h kl2 (List.mem_cons_of_mem _ h2))

theorem deletesPart_self (bigM : List (String × List DeclRecord)) :
    ∀ entries, (∀ kl ∈ entries, findGroup bigM kl.1 = kl.2) → deletesPart bigM entries = [] := by
  intro entries
  induction entries with
  | nil => intro _; rfl
  | cons kl rest ih =>
    intro h
    obtain ⟨k, l⟩ := kl
    rw [deletesPart]
    rw [h (k, l) (List.mem_cons_self _ _)]
    simp only [List.drop_length, List.map_nil, List.nil_append]
    exact ih (fun kl2 h2 => h kl2 (List.mem_cons_of_mem _ h2))

/-- C6: differ idempotence — for every CSS text A (parse failures included,
where both sides collapse to the empty list), `findChangedDeclarations(A, A)`
emits no change of any kind. -/
theorem claim_C6_differ_idempotent (a : String) : findChangedDeclarations a a = [] := by
  unfold findChangedDeclarations
  dsimp only
  have hself : ∀ kl ∈ groupDecls (parseDeclarations a),
      findGroup (groupDecls (parseDeclarations a)) kl.1 = kl.2 := by
    intro kl hm
    obtain ⟨k, l⟩ := kl
    exact findGroup_self k l _ (nodupKeys_groupDecls _) hm
  rw [changesPart_self _ _ hself, deletesPart_self _ _ hself]
  rfl

theorem splitImportant_inv (raw : String) (h : (splitImportant raw).2 = false) :
    impLit.isSuffixOf (splitImportant raw).1.data = false := by
  unfold splitImportant at *
  by_cases hs : impLit.isSuffixOf (trimChars raw.data) = true
  · simp [hs] at h
  · simp only [Bool.not_eq_true] at hs
    simp [hs]

theorem nodesInvB_cons (nd : CssNode) (sibs : CssForest) :
    nodesInvB (.cons nd sibs) = (nodesInvB (.cons nd .nil) && nodesInvB sibs) := by
  cases nd <;> simp [nodesInvB]

theorem mkDecl_inv (p rv : String) (off : Nat) :
    nodesInvB (.cons (mkDecl p rv off) .nil) = true := by
  unfold mkDecl
  dsimp only
  simp only [nodesInvB, Bool.and_true]
  by_cases hi : (splitImportant rv).2 = true
  · simp [hi]
  · simp only [Bool.not_eq_true] at hi
    simp [hi, splitImportant_inv _ hi]

theorem parseStatement_inv (chunk : List Char) (off : Nat) (node : CssNode)
    (h : parseStatement chunk off = .ok node) : nodesInvB (.cons node .nil) = true := by
  unfold parseStatement at h
  dsimp only at h
  split at h
  · cases h
    rfl
  · split at h
    · cases h
    · cases h
      exact mkDecl_inv _ _ _

theorem mkBlock_inv (chunk : List Char) (inner : CssForest) (sibs : CssForest) :
    nodesInvB (.cons (mkBlock chunk inner) sibs) = (nodesInvB inner && nodesInvB sibs) := by
  unfold mkBlock
  dsimp only
  split <;> simp [nodesInvB]

theorem parseNodes_inv :
    ∀ (fuel : Nat) (cs : List Char) (off : Nat) (nodes : CssForest) (rest : List Char) (o : Nat),
      parseNodes fuel cs off = .ok (nodes, rest, o) → nodesInvB nodes = true := by
  intro fuel
  induction fuel with
  | zero => intro cs off nodes rest o h; rw [parseNodes] at h; cases h
  | succ n ih =>
    intro cs off nodes rest o h
    rw [parseNodes] at h
    split at h
    · cases h
    · split at h
      · cases h; rfl
      · split at h
        · cases h; rfl
        · split at h
          · cases h
          · split at h
            · split at h
              · split at h
                · cases h
                · rename_i inner rest3 off3 hrec1
                  split at h
                  · split at h
                    · split at h
                      · cases h
                      · rename_i sibs rest5 off5 hrec2
                        cases h
                        rw [mkBlock_inv, ih _ _ _ _ _ hrec1, ih _ _ _ _ _ hrec2]
                        rfl
                    · cases h
                  · cases h
              · split at h
                · split at h
                  · exact ih _ _ _ _ _ h
                  · split at h
                    · cases h
                    · rename_i node0 hstmt
                      split at h
                      · cases h
                      · rename_i sibs rest3 off3 hrec
                        cases h
                        rw [nodesInvB_cons, parseStatement_inv _ _ _ hstmt,
                          ih _ _ _ _ _ hrec]
                        rfl
                · split at h
                  · cases h; rfl
                  · split at h
                    · cases h
                    · rename_i node0 hstmt
                      cases h
                      exact parseStatement_inv _ _ _ hstmt
            · split at h
              · cases h; rfl
              · split at h
                · cases h
                · rename_i node0 hstmt
                  cases h
                  exact parseStatement_inv _ _ _ hstmt

theorem parseRoot_inv (t : String) (nodes : CssForest) (h : parseRoot t = .ok nodes) :
    nodesInvB nodes = true := by
  unfold parseRoot at h
  split at h
  · cases h
  · rename_i nodes0 o hpn
    cases h
    exact parseNodes_inv _ _ _ _ _ _ hpn
  · cases h

theorem collectDecls_inv (text : String) : ∀ (label : String) (nodes : CssForest),
    nodesInvB nodes = true → ∀ d ∈ collectDecls text label nodes, declRecInv d
  | label, .nil => by
    intro _ d hd
    rw [collectDecls] at hd
    cases hd
  | label, .cons (.decl p v imp off) rest => by
    intro hinv d hd
    rw [collectDecls] at hd
    rw [nodesInvB] at hinv
    rcases List.mem_cons.mp hd with h | h
    · subst h
      intro himp
      have himp2 : imp = false := himp
      rw [himp2] at hinv
      simp only [Bool.false_or, Bool.and_eq_true, Bool.not_eq_true'] at hinv
      exact hinv.1
    · exact collectDecls_inv text label rest (by
        simp only [Bool.and_eq_true] at hinv; exact hinv.2) d h
  | label, .cons (.rule sel inner) rest => by
    intro hinv d hd
    rw [collectDecls] at hd
    rw [nodesInvB] at hinv
    simp only [Bool.and_eq_true] at hinv
    rcases List.mem_append.mp hd with h | h
    · exact collectDecls_inv text (labelOf sel) inner hinv.1 d h
    · exact collectDecls_inv text label rest hinv.2 d h
  | label, .cons (.atrule nm pr inner) rest => by
    intro hinv d hd
    rw [collectDecls] at hd
    rw [nodesInvB] at hinv
    simp only [Bool.and_eq_true] at hinv
    rcases List.mem_append.mp hd with h | h
    · exact collectDecls_inv text (labelOf nm) inner hinv.1 d h
    · exact collectDecls_inv text label rest hinv.2 d h

theorem parseDeclarations_inv (t : String) : ∀ d ∈ parseDeclarations t, declRecInv d := by
  intro d hd
  unfold parseDeclarations at hd
  split at hd
  · cases hd
  · rename_i nodes hp
    exact collectDecls_inv t "(unknown)" nodes (parseRoot_inv t nodes hp) d hd

theorem addToGroup_all (P : DeclRecord → Prop) (k : String) (d : DeclRecord) :
    ∀ m : List (String × List DeclRecord),
      (∀ kl ∈ m, ∀ x ∈ kl.2, P x) → P d →
      ∀ kl ∈ addToGroup m k d, ∀ x ∈ kl.2, P x := by
  intro m
  induction m with
  | nil =>
    intro _ hd kl hkl x hx
    rw [addToGroup] at hkl
    rcases List.mem_singleton.mp hkl with rfl
    rcases List.mem_singleton.mp hx with rfl
    exact hd
  | cons kl0 rest ih =>
    intro hm hd kl hkl x hx
    obtain ⟨k0, l0⟩ := kl0
    rw [addToGroup] at hkl
    by_cases hk : k0 = k
    · rw [if_pos hk] at hkl
      rcases List.mem_cons.mp hkl with h | h
      · subst h
        rcases List.mem_append.mp hx with h2 | h2
        · exact hm (k0, l0) (List.mem_cons_self _ _) x h2
        · rcases List.mem_singleton.mp h2 with rfl
          exact hd
      · exact hm kl (List.mem_cons_of_mem _ h) x hx
    · rw [if_neg hk] at hkl
      rcases List.mem_cons.mp hkl with h | h
      · subst h
        exact hm (k0, l0) (List.mem_cons_self _ _) x hx
      · exact ih (fun kl2 h2 => hm kl2 (List.mem_cons_of_mem _ h2)) hd kl h x hx

theorem groupDecls_all (P : DeclRecord → Prop) (ds : List DeclRecord)
    (h : ∀ d ∈ ds, P d) : ∀ kl ∈ groupDecls ds, ∀ x ∈ kl.2, P x := by
  unfold groupDecls
  suffices hgen : ∀ (ds : List DeclRecord) (m : List (String × List DeclRecord)),
      (∀ d ∈ ds, P d) → (∀ kl ∈ m, ∀ x ∈ kl.2, P x) →
      ∀ kl ∈ ds.foldl (fun m d => addToGroup m (declKey d) d) m, ∀ x ∈ kl.2, P x by
    exact hgen ds [] h (by intro kl hkl; cases hkl)
  intro ds2
  induction ds2 with
  | nil => intro m _ hm; simpa using hm
  | cons d rest ih =>
    intro m hds hm
    simp only [List.foldl_cons]
    exact ih _ (fun x hx => hds x (List.mem_cons_of_mem _ hx))
      (addToGroup_all P (declKey d) d m hm (hds d (List.mem_cons_self _ _)))

theorem findGroup_all (P : DeclRecord → Prop) :
    ∀ (m : List (String × List DeclRecord)) (k : String),
      (∀ kl ∈ m, ∀ x ∈ kl.2, P x) → ∀ x ∈ findGroup m k, P x := by
  intro m
  induction m with
  | nil => intro k _ x hx; cases hx
  | cons kl0 rest ih =>
    intro k hm x hx
    obtain ⟨k0, l0⟩ := kl0
    rw [findGroup] at hx
    by_cases hk : k0 = k
    · rw [if_pos hk] at hx
      exact hm (k0, l0) (List.mem_cons_self _ _) x hx
    · rw [if_neg hk] at hx
      exact ih k (fun kl2 h2 => hm kl2 (List.mem_cons_of_mem _ h2)) x hx

theorem emitForKey_mem :
    ∀ (ol nl : List DeclRecord) (c : DeclarationChange), c ∈ emitForKey ol nl →
      (∃ nd ∈ nl, c = mkAddChange nd)
      ∨ (∃ od nd, od ∈ ol ∧ nd ∈ nl
          ∧ (od.value ≠ nd.value ∨ od.important ≠ nd.important) ∧ c = mkModifyChange od nd) := by
  intro ol
  induction ol with
  | nil =>
    intro nl
    induction nl with
    | nil => intro c hc; cases hc
    | cons nd ns ihn =>
      intro c hc
      rw [emitForKey] at hc
      rcases List.mem_cons.mp hc with h | h
      · exact Or.inl ⟨nd, List.mem_cons_self _ _, h⟩
      · rcases ihn c h with ⟨nd2, hnd2, hc2⟩ | ⟨od, nd2, hod, _, _⟩
        · exact Or.inl ⟨nd2, List.mem_cons_of_mem _ hnd2, hc2⟩
        · cases hod
  | cons od os iho =>
    intro nl c hc
    cases nl with
    | nil => cases hc
    | cons nd ns =>
      rw [emitForKey] at hc
      rcases List.mem_append.mp hc with h | h
      · by_cases hg : od.value ≠ nd.value ∨ od.important ≠ nd.important
        · rw [if_pos hg] at h
          rcases List.mem_singleton.mp h with rfl
          exact Or.inr ⟨od, nd, List.mem_cons_self _ _, List.mem_cons_self _ _, hg, rfl⟩
        · rw [if_neg hg] at h
          cases h
      · rcases iho ns c h with ⟨nd2, hnd2, hc2⟩ | ⟨od2, nd2, hod2, hnd2, hg2, hc2⟩
        · exact Or.inl ⟨nd2, List.mem_cons_of_mem _ hnd2, hc2⟩
        · exact Or.inr ⟨od2, nd2, List.mem_cons_of_mem _ hod2, List.mem_cons_of_mem _ hnd2,
            hg2, hc2⟩

theorem changesPart_mem (oldMap : List (String × List DeclRecord)) :
    ∀ (entries : List (String × List DeclRecord)) (c : DeclarationChange),
      c ∈ changesPart oldMap entries →
      ∃ kl ∈ entries, c ∈ emitForKey (findGroup oldMap kl.1) kl.2 := by
  intro entries
  induction entries with
  | nil => intro c hc; cases hc
  | cons kl0 rest ih =>
    intro c hc
    obtain ⟨k, l⟩ := kl0
    rw [changesPart] at hc
    rcases List.mem_append.mp hc with h | h
    · exact ⟨(k, l), List.mem_cons_self _ _, h⟩
    · rcases ih c h with ⟨kl2, hkl2, hc2⟩
      exact ⟨kl2, List.mem_cons_of_mem _ hkl2, hc2⟩

theorem impLit_suffix_of_append (v : String) (w : String) (h : v = w ++ " !important") :
    impLit.isSuffixOf v.data = true := by
  rw [List.isSuffixOf_iff_suffix]
  rw [h, String.data_append]
  have h1 : impLit <:+ (" !important" : String).data := ⟨[' '], by decide⟩
  exact h1.trans (List.suffix_append _ _)

theorem renderVal_ne (od nd : DeclRecord) (ho : declRecInv od) (hn : declRecInv nd)
    (h : od.value ≠ nd.value ∨ od.important ≠ nd.important) :
    renderVal od.value od.important ≠ renderVal nd.value nd.important := by
  unfold renderVal
  unfold declRecInv at ho hn
  intro heq
  cases hio : od.important <;> cases hin : nd.important <;> rw [hio, hin] at heq
  · simp only [Bool.false_eq_true, if_false, ne_eq] at heq
    have hv : od.value = nd.value := by
      apply String.ext
      have := congrArg String.data heq
      simpa [String.data_append] using this
    rcases h with hv2 | hi2
    · exact hv2 hv
    · rw [hio, hin] at hi2; exact hi2 rfl
  · simp only [Bool.false_eq_true, if_false, if_pos] at heq
    have hval : od.value = nd.value ++ " !important" := by
      apply String.ext
      have := congrArg String.data heq
      simpa [String.data_append] using this
    have hsuf := impLit_suffix_of_append _ _ hval
    rw [ho hio] at hsuf
    cases hsuf
  · simp only [Bool.false_eq_true, if_false, if_pos] at heq
    have hval : nd.value = od.value ++ " !important" := by
      apply String.ext
      have := congrArg String.data heq.symm
      simpa [String.data_append] using this
    have hsuf := impLit_suffix_of_append _ _ hval
    rw [hn hin] at hsuf
    cases hsuf
  · simp only [if_pos] at heq
    have hv : od.value = nd.value := by
      apply String.ext
      have h2 := congrArg String.data heq
      rw [String.data_append, String.data_append] at h2
      exact List.append_cancel_right h2
    rcases h with hv2 | hi2
    · exact hv2 hv
    · rw [hio, hin] at hi2; exact hi2 rfl

/-- C7: every `DeclarationChange` the differ emits satisfies the kind
invariants — an add has no old value and a new value; a modify (spelled
`"change"` by the code) has both values present and different (values that
would differ only in the `!important` flag render differently, because a
parsed value never ends in the literal unless the flag is set); a delete
has an old value and no new value; no other kind exists. -/
theorem claim_C7_change_kind_invariants (oldCss newCss : String) (c : DeclarationChange)
    (hc : c ∈ findChangedDeclarations oldCss newCss) : kindInvariants c := by
  unfold findChangedDeclarations at hc
  dsimp only at hc
  rcases List.mem_append.mp hc with h | h
  · rcases changesPart_mem _ _ c h with ⟨kl, hkl, hem⟩
    rcases emitForKey_mem _ _ c hem with ⟨nd, hnd, rfl⟩ | ⟨od, nd, hod, hnd, hg, rfl⟩
    · refine ⟨fun _ => ⟨rfl, by simp [mkAddChange]⟩, ?_, ?_, Or.inl rfl⟩
      · intro habs; simp [mkAddChange, mkModifyChange, mkDeleteChange] at habs
      · intro habs; simp [mkAddChange, mkModifyChange, mkDeleteChange] at habs
    · have hoInv : declRecInv od :=
        findGroup_all declRecInv _ kl.1
          (groupDecls_all declRecInv _ (parseDeclarations_inv oldCss)) od hod
      have hnInv : declRecInv nd :=
        groupDecls_all declRecInv _ (parseDeclarations_inv newCss) kl hkl nd hnd
      have hne := renderVal_ne od nd hoInv hnInv hg
      refine ⟨?_, fun _ => ⟨by simp [mkModifyChange], by simp [mkModifyChange], ?_⟩, ?_,
        Or.inr (Or.inl rfl)⟩
      · intro habs; simp [mkAddChange, mkModifyChange, mkDeleteChange] at habs
      · intro hcon
        exact hne (Option.some.inj (by simpa [mkModifyChange] using hcon))
      · intro habs; simp [mkAddChange, mkModifyChange, mkDeleteChange] at habs
  · rcases deletesPart_mem _ _ c h with ⟨od, rfl⟩
    refine ⟨?_, ?_, fun _ => ⟨by simp [mkDeleteChange], rfl⟩, Or.inr (Or.inr rfl)⟩
    · intro habs; simp [mkAddChange, mkModifyChange, mkDeleteChange] at habs
    · intro habs; simp [mkAddChange, mkModifyChange, mkDeleteChange] at habs

/-- C7 witness: the invariants at the concrete red-to-blue modify. -/
theorem claim_C7_witness : kindInvariants exC1Change :=
  claim_C7_change_kind_invariants exC1OldText exC1NewText exC1Change (by decide)

end CssSync
